import Mathlib

/-!
# Verification of the CONUS404 batch-download orchestration core

A shallow embedding of the process-orchestration and failure-recovery core of
the `conus404BatchDownload` repository:

* `src/src/driver.py` — main-pass pool controller (`DownloadDriver`),
  writing per-date failure files under `failed_jobs/`;
* `src/pipeline/src/driver.py` — pipeline variant of the driver, writing the
  single ledger document `data/failed_jobs.json` and clearing it at run start;
* `src/src/retry_failed.py` — retry orchestrator, reading
  `data/failed_jobs.json` and writing `ultimate_failures.json`.

Worker processes, the OS scheduler and the clock are modelled by an oracle
(`Env`): `poll pid t` is the exit code observed for process `pid` when polled
at tick `t` (`none` = still running), `launch k` is the pid assigned by the
`k`-th `subprocess.Popen` call (`none` = the launch raised), and `now t` is
the `datetime.now().isoformat()` string at tick `t`.  Each iteration of a
driver's 1-second polling loop is one tick.  File contents are modelled as
values (`LedgerFile`); all JSON objects are ordered association lists, since
Python dicts preserve insertion order.
-/

namespace Conus404

/-! ## Calendar dates

`datetime.date` values.  `datetime.strptime(s, "%Y-%m-%d")` (used by
`retry_failed.py` to parse ledger keys) is embedded by `parseDateKey`, and
`date.strftime("%Y-%m-%d")` by `fmtDate`.  CPython's `_strptime` matches
`%Y` against exactly four digits and `%m`/`%d` against one or two digits
(the leading zero is optional for `strptime`), requires the whole string to
be consumed, and then validates the field ranges via the `datetime`
constructor (year 1..9999, month 1..12, day 1..days-in-month). -/

structure Date where
  year : Nat
  month : Nat
  day : Nat
deriving DecidableEq, Repr

def isLeap (y : Nat) : Bool :=
  (y % 4 == 0 && y % 100 != 0) || (y % 400 == 0)

def daysInMonth (y m : Nat) : Nat :=
  if m = 2 then (if isLeap y then 29 else 28)
  else if m = 4 ∨ m = 6 ∨ m = 9 ∨ m = 11 then 30
  else 31

/-- The ranges accepted by the `datetime.date` constructor. -/
def Date.valid (d : Date) : Bool :=
  decide (1 ≤ d.year ∧ d.year ≤ 9999 ∧ 1 ≤ d.month ∧ d.month ≤ 12 ∧
    1 ≤ d.day ∧ d.day ≤ daysInMonth d.year d.month)

def digitChar (n : Nat) : Char := Char.ofNat (48 + n % 10)

/-- `"%02d"` rendering of `n < 100` (strftime zero-pads `%m` and `%d`). -/
def pad2Chars (n : Nat) : List Char := [digitChar (n / 10), digitChar n]

/-- `"%04d"` rendering of `n < 10000` (strftime zero-pads `%Y`). -/
def pad4Chars (n : Nat) : List Char :=
  [digitChar (n / 1000), digitChar (n / 100), digitChar (n / 10), digitChar n]

/-- `date.strftime("%Y-%m-%d")`, the canonical key format used everywhere a
date is written by the system. -/
def fmtDate (d : Date) : String :=
  String.mk (pad4Chars d.year ++ '-' :: pad2Chars d.month ++ '-' :: pad2Chars d.day)

/-- Splitting a character list on `'-'` (the separator structure the
`_strptime` regex `\d{4}-(1[0-2]|0[1-9]|[1-9])-(3[01]|[12]\d|0[1-9]|[1-9])`
imposes on an accepted input). -/
def splitAux (cur : List Char) : List Char → List (List Char)
  | [] => [cur.reverse]
  | c :: rest => if c = '-' then cur.reverse :: splitAux [] rest
                 else splitAux (c :: cur) rest

def splitOnDash (cs : List Char) : List (List Char) := splitAux [] cs

/-- ASCII digit test (what the `_strptime` regex accepts for `\d`). -/
def isDigitChar (c : Char) : Bool := 48 ≤ c.toNat && c.toNat ≤ 57

def allDigits (cs : List Char) : Bool := !cs.isEmpty && cs.all isDigitChar

def digitsToNat (cs : List Char) : Nat :=
  cs.foldl (fun a c => a * 10 + (c.toNat - 48)) 0

/-- Field validation of the three hyphen-separated parts, mirroring the
`_strptime` regex widths and the `datetime.date` range checks. -/
def parseParts : List (List Char) → Option Date
  | [ys, ms, ds] =>
    if allDigits ys = true ∧ allDigits ms = true ∧ allDigits ds = true ∧
       ys.length = 4 ∧ 1 ≤ digitsToNat ys ∧
       (ms.length = 1 ∨ ms.length = 2) ∧
       1 ≤ digitsToNat ms ∧ digitsToNat ms ≤ 12 ∧
       (ds.length = 1 ∨ ds.length = 2) ∧ 1 ≤ digitsToNat ds ∧
       digitsToNat ds ≤ daysInMonth (digitsToNat ys) (digitsToNat ms)
    then some ⟨digitsToNat ys, digitsToNat ms, digitsToNat ds⟩ else none
  | _ => none

/-- `datetime.strptime(s, "%Y-%m-%d").date()`, returning `none` where CPython
raises `ValueError`: the year part must be exactly four digits, month and day
one or two digits, the hyphens literal, nothing left over, and the field
values in the `datetime.date` ranges. -/
def parseDateKey (s : String) : Option Date :=
  parseParts (splitOnDash s.toList)

/-! ### Parsing / formatting lemmas -/

theorem digitChar_spec (n : Nat) :
    (digitChar n).toNat = 48 + n % 10 ∧ isDigitChar (digitChar n) = true ∧
      digitChar n ≠ '-' := by
  have h : n % 10 < 10 := Nat.mod_lt _ (by omega)
  have : n % 10 = 0 ∨ n % 10 = 1 ∨ n % 10 = 2 ∨ n % 10 = 3 ∨ n % 10 = 4 ∨
      n % 10 = 5 ∨ n % 10 = 6 ∨ n % 10 = 7 ∨ n % 10 = 8 ∨ n % 10 = 9 := by omega
  unfold digitChar
  rcases this with h | h | h | h | h | h | h | h | h | h <;> rw [h] <;>
    exact ⟨by decide, by decide, by decide⟩

theorem digitChar_ne_dash (n : Nat) : digitChar n ≠ '-' := (digitChar_spec n).2.2

theorem digitChar_toNat (n : Nat) : (digitChar n).toNat = 48 + n % 10 :=
  (digitChar_spec n).1

theorem digitChar_isDigit (n : Nat) : isDigitChar (digitChar n) = true :=
  (digitChar_spec n).2.1

theorem daysInMonth_le_31 (y m : Nat) : daysInMonth y m ≤ 31 := by
  unfold daysInMonth
  split
  · split <;> omega
  · split <;> omega

theorem digitsToNat_pad2 (n : Nat) :
    digitsToNat (pad2Chars n) = (n / 10) % 10 * 10 + n % 10 := by
  simp [digitsToNat, pad2Chars, digitChar_toNat]

theorem digitsToNat_pad4 (n : Nat) :
    digitsToNat (pad4Chars n) =
      ((n / 1000) % 10 * 10 + (n / 100) % 10) * 10 * 10 +
        ((n / 10) % 10 * 10 + n % 10) := by
  simp [digitsToNat, pad4Chars, digitChar_toNat]; ring

theorem digitsToNat_foldl_lt (l : List Char) :
    ∀ a : Nat, l.all isDigitChar = true →
      l.foldl (fun a c => a * 10 + (c.toNat - 48)) a < (a + 1) * 10 ^ l.length := by
  induction l with
  | nil => intro a _; simp
  | cons c l ih =>
    intro a hl
    simp only [List.all_cons, Bool.and_eq_true] at hl
    have hc : c.toNat - 48 ≤ 9 := by
      have := hl.1
      simp [isDigitChar, Bool.and_eq_true, decide_eq_true_eq] at this
      omega
    have hrec := ih (a * 10 + (c.toNat - 48)) hl.2
    calc (c :: l).foldl (fun a c => a * 10 + (c.toNat - 48)) a
        = l.foldl (fun a c => a * 10 + (c.toNat - 48))
            (a * 10 + (c.toNat - 48)) := rfl
      _ < (a * 10 + (c.toNat - 48) + 1) * 10 ^ l.length := hrec
      _ ≤ (a + 1) * 10 ^ (c :: l).length := by
          simp only [List.length_cons, pow_succ]
          have h1 : a * 10 + (c.toNat - 48) + 1 ≤ (a + 1) * 10 := by omega
          calc (a * 10 + (c.toNat - 48) + 1) * 10 ^ l.length
              ≤ (a + 1) * 10 * 10 ^ l.length := Nat.mul_le_mul_right _ h1
            _ = (a + 1) * (10 ^ l.length * 10) := by ring

theorem digitsToNat_lt (cs : List Char) (h : cs.all isDigitChar = true) :
    digitsToNat cs < 10 ^ cs.length := by
  have := digitsToNat_foldl_lt cs 0 h
  simpa [digitsToNat] using this

/-- Round-trip: a valid date's canonical rendering parses back to the date.
This is how `retry_failed.py` can target ledger entries by re-formatting a
parsed date. -/
theorem parse_fmtDate (d : Date) (hd : d.valid = true) :
    parseDateKey (fmtDate d) = some d := by
  obtain ⟨y, m, dd⟩ := d
  simp only [Date.valid, decide_eq_true_eq] at hd
  obtain ⟨hy1, hy2, hm1, hm2, hd1, hd2⟩ := hd
  have hdd : dd ≤ 31 := le_trans hd2 (daysInMonth_le_31 y m)
  have hsplit : splitOnDash (String.mk
      (pad4Chars y ++ '-' :: pad2Chars m ++ '-' :: pad2Chars dd)).toList
      = [pad4Chars y, pad2Chars m, pad2Chars dd] := by
    show splitAux [] _ = _
    simp [pad4Chars, pad2Chars, splitAux, digitChar_ne_dash]
  show parseParts _ = _
  rw [show (fmtDate ⟨y, m, dd⟩) = String.mk
      (pad4Chars y ++ '-' :: pad2Chars m ++ '-' :: pad2Chars dd) from rfl, hsplit]
  have hall4 : allDigits (pad4Chars y) = true := by
    simp [allDigits, pad4Chars, digitChar_isDigit]
  have hall2m : allDigits (pad2Chars m) = true := by
    simp [allDigits, pad2Chars, digitChar_isDigit]
  have hall2d : allDigits (pad2Chars dd) = true := by
    simp [allDigits, pad2Chars, digitChar_isDigit]
  have hyv : digitsToNat (pad4Chars y) = y := by
    rw [digitsToNat_pad4]; omega
  have hmv : digitsToNat (pad2Chars m) = m := by
    rw [digitsToNat_pad2]; omega
  have hdv : digitsToNat (pad2Chars dd) = dd := by
    rw [digitsToNat_pad2]; omega
  simp only [parseParts, hyv, hmv, hdv]
  rw [if_pos ⟨hall4, hall2m, hall2d, rfl, hy1, Or.inr rfl, hm1, hm2,
    Or.inr rfl, hd1, hd2⟩]

/-- Every successfully parsed key yields a `datetime.date`-valid date. -/
theorem parse_valid {s : String} {d : Date} (h : parseDateKey s = some d) :
    d.valid = true := by
  unfold parseDateKey at h
  generalize hl : splitOnDash s.toList = l at h
  clear hl
  rcases l with _ | ⟨ys, l⟩
  · exact absurd h (by simp [parseParts])
  rcases l with _ | ⟨ms, l⟩
  · exact absurd h (by simp [parseParts])
  rcases l with _ | ⟨ds, l⟩
  · exact absurd h (by simp [parseParts])
  rcases l with _ | ⟨x, l⟩
  · simp only [parseParts] at h
    by_cases hc : allDigits ys = true ∧ allDigits ms = true ∧ allDigits ds = true ∧
        ys.length = 4 ∧ 1 ≤ digitsToNat ys ∧
        (ms.length = 1 ∨ ms.length = 2) ∧
        1 ≤ digitsToNat ms ∧ digitsToNat ms ≤ 12 ∧
        (ds.length = 1 ∨ ds.length = 2) ∧ 1 ≤ digitsToNat ds ∧
        digitsToNat ds ≤ daysInMonth (digitsToNat ys) (digitsToNat ms)
    · rw [if_pos hc] at h
      obtain ⟨hdig, _, _, hlen4, hy1, _, hm1, hm2, _, hdd1, hdd2⟩ := hc
      cases h
      simp only [Date.valid, decide_eq_true_eq]
      refine ⟨hy1, ?_, hm1, hm2, hdd1, hdd2⟩
      have hydig : ys.all isDigitChar = true := by
        simp only [allDigits, Bool.and_eq_true] at hdig
        exact hdig.2
      have := digitsToNat_lt ys hydig
      rw [hlen4] at this
      omega
    · rw [if_neg hc] at h
      exact absurd h (by simp)
  · exact absurd h (by simp [parseParts])

/-- `fmtDate` is injective on valid dates. -/
theorem fmtDate_inj {d1 d2 : Date} (h1 : d1.valid = true) (h2 : d2.valid = true)
    (h : fmtDate d1 = fmtDate d2) : d1 = d2 := by
  have := parse_fmtDate d1 h1
  rw [h, parse_fmtDate d2 h2] at this
  exact (Option.some_inj.mp this).symm

/-- An unparsable key can never equal the canonical rendering of a valid
date (used to show records under unparsable keys are never touched). -/
theorem fmtDate_ne_of_unparsable {s : String} {d : Date}
    (hs : parseDateKey s = none) (hd : d.valid = true) : fmtDate d ≠ s := by
  intro h
  rw [← h, parse_fmtDate d hd] at hs
  exact Option.noConfusion hs

/-! ## Failure records and the ledger document

`config.py` fixes `VARIABLE_AGG_MAP`; `list(VARIABLE_AGG_MAP.keys())` is the
full retryable variable set written into every `FailureRecord`
(`driver.py::log_failure` in both variants). -/

def allVarsList : List String :=
  ["T2", "Q2", "TD2", "PSFC", "ACRAINLSM", "LAI", "U10", "V10", "Z"]

/-- The per-date record schema written by `log_failure` and rewritten by
`retry_failed.py`. -/
structure FailureRecord where
  date : String
  variables_to_retry : List String
  error_message : String
  last_attempt : String
deriving DecidableEq, Repr

/-- A JSON object keyed by date string, in insertion order (Python dicts
preserve insertion order; `json.dump`/`json.load` preserve it too). -/
abbrev Ledger := List (String × FailureRecord)

def keysOf (m : Ledger) : List String := m.map Prod.fst

def lookupKey : Ledger → String → Option FailureRecord
  | [], _ => none
  | (k', v) :: rest, k => if k' = k then some v else lookupKey rest k

/-- Python dict assignment `m[k] = v`: replace in place if the key exists,
else append at the end. -/
def setKey : Ledger → String → FailureRecord → Ledger
  | [], k, v => [(k, v)]
  | (k', v') :: rest, k, v =>
    if k' = k then (k, v) :: rest else (k', v') :: setKey rest k v

/-- `if k in m: del m[k]` — remove the entry for `k` when present. -/
def eraseKey : Ledger → String → Ledger
  | [], _ => []
  | (k', v') :: rest, k => if k' = k then rest else (k', v') :: eraseKey rest k

/-- `retry_failed.py` lines 191–193: when `k` is present, overwrite its
`error_message` and `last_attempt` in place (other fields untouched). -/
def updateRetryFailure : Ledger → String → Int → String → Ledger
  | [], _, _, _ => []
  | (k', v') :: rest, k, rc, now =>
    if k' = k then
      (k', { v' with error_message := s!"Retry failed with exit code {rc}",
                     last_attempt := now }) :: rest
    else (k', v') :: updateRetryFailure rest k rc now

/-- Contents of the on-disk ledger document `data/failed_jobs.json`:
missing file, unparsable content, or a parsed JSON object. -/
inductive LedgerFile where
  | absent
  | corrupt
  | content (m : Ledger)
deriving DecidableEq, Repr

/-- The read at the top of the pipeline driver's `log_failure`: a missing
file yields `{}`, a `json.JSONDecodeError` is caught, logged and also
yields `{}`. -/
def loadForLog : LedgerFile → Ledger
  | .absent => []
  | .corrupt => []
  | .content m => m

/-- The clear block at the start of the pipeline driver's `run()`: the
ledger file is overwritten with an empty JSON object. -/
def clearLedger : LedgerFile := .content []

/-- The record built by `log_failure` for a failed date (both driver
variants build the same record). -/
def mkFailureRecord (d : Date) (rc : Int) (now : String) : FailureRecord :=
  { date := fmtDate d,
    variables_to_retry := allVarsList,
    error_message := s!"Subprocess failed with exit code {rc}",
    last_attempt := now }

/-- `pipeline/src/driver.py::log_failure`: read the ledger document
(treating absent/corrupt as empty), add or update the date's record, and
write the whole dictionary back. -/
def log_failure (file : LedgerFile) (d : Date) (rc : Int) (now : String) :
    LedgerFile :=
  .content (setKey (loadForLog file) (fmtDate d) (mkFailureRecord d rc now))

/-- `src/src/driver.py::log_failure`: write the record to the per-date file
`failed_jobs/<date>.json`, overwriting any previous file for that date.
The directory is modelled as a mapping from date string to record. -/
def srcLogFailure (dir : Ledger) (d : Date) (rc : Int) (now : String) :
    Ledger :=
  setKey dir (fmtDate d) (mkFailureRecord d rc now)

/-! ### Ledger lemmas -/

theorem keysOf_cons (k' : String) (v' : FailureRecord) (rest : Ledger) :
    keysOf ((k', v') :: rest) = k' :: keysOf rest := rfl

theorem lookupKey_cons (k' : String) (v' : FailureRecord) (rest : Ledger)
    (k : String) : lookupKey ((k', v') :: rest) k =
      if k' = k then some v' else lookupKey rest k := rfl

theorem eraseKey_cons (k' : String) (v' : FailureRecord) (rest : Ledger)
    (k : String) : eraseKey ((k', v') :: rest) k =
      if k' = k then rest else (k', v') :: eraseKey rest k := rfl

theorem lookupKey_setKey_self (m : Ledger) (k : String) (v : FailureRecord) :
    lookupKey (setKey m k v) k = some v := by
  induction m with
  | nil => simp [setKey, lookupKey]
  | cons p rest ih =>
    obtain ⟨k', v'⟩ := p
    by_cases h : k' = k
    · simp [setKey, h, lookupKey]
    · simp only [setKey, if_neg h, lookupKey, if_neg h]
      exact ih

theorem lookupKey_setKey_other (m : Ledger) (k k1 : String) (v : FailureRecord)
    (h : k1 ≠ k) : lookupKey (setKey m k v) k1 = lookupKey m k1 := by
  induction m with
  | nil => simp only [setKey, lookupKey, if_neg (Ne.symm h)]
  | cons p rest ih =>
    obtain ⟨k', v'⟩ := p
    by_cases hk : k' = k
    · subst hk
      simp only [setKey, if_pos rfl, lookupKey, if_neg (Ne.symm h)]
    · simp only [setKey, if_neg hk, lookupKey]
      by_cases hk1 : k' = k1
      · rw [if_pos hk1, if_pos hk1]
      · rw [if_neg hk1, if_neg hk1]
        exact ih

theorem keysOf_setKey (m : Ledger) (k : String) (v : FailureRecord) :
    keysOf (setKey m k v) =
      if k ∈ keysOf m then keysOf m else keysOf m ++ [k] := by
  induction m with
  | nil => simp [setKey, keysOf]
  | cons p rest ih =>
    obtain ⟨k', v'⟩ := p
    by_cases h : k' = k
    · subst h
      rw [show setKey ((k', v') :: rest) k' v = (k', v) :: rest from if_pos rfl]
      rw [keysOf_cons, keysOf_cons, if_pos (List.mem_cons_self _ _)]
    · rw [show setKey ((k', v') :: rest) k v = (k', v') :: setKey rest k v
        from if_neg h]
      rw [keysOf_cons, keysOf_cons, ih]
      by_cases hk : k ∈ keysOf rest
      · rw [if_pos hk, if_pos (List.mem_cons_of_mem _ hk)]
      · rw [if_neg hk, if_neg (by simp [hk, Ne.symm h]), List.cons_append]

theorem nodup_keysOf_setKey (m : Ledger) (k : String) (v : FailureRecord)
    (hnd : (keysOf m).Nodup) : (keysOf (setKey m k v)).Nodup := by
  rw [keysOf_setKey]
  by_cases hk : k ∈ keysOf m
  · rw [if_pos hk]; exact hnd
  · rw [if_neg hk, List.nodup_append]
    refine ⟨hnd, List.nodup_singleton _, ?_⟩
    intro a ha hak
    rw [List.mem_singleton] at hak
    exact hk (hak ▸ ha)

theorem keysOf_eraseKey_subset (m : Ledger) (k : String) :
    ∀ k1, k1 ∈ keysOf (eraseKey m k) → k1 ∈ keysOf m := by
  induction m with
  | nil => simp [eraseKey]
  | cons p rest ih =>
    obtain ⟨k', v'⟩ := p
    intro k1 h1
    by_cases h : k' = k
    · simp only [eraseKey, if_pos h, keysOf_cons] at h1 ⊢
      exact List.mem_cons_of_mem _ h1
    · simp only [eraseKey, if_neg h, keysOf_cons, List.mem_cons] at h1 ⊢
      rcases h1 with h1 | h1
      · exact Or.inl h1
      · exact Or.inr (ih k1 h1)

theorem nodup_keysOf_eraseKey (m : Ledger) (k : String)
    (hnd : (keysOf m).Nodup) : (keysOf (eraseKey m k)).Nodup := by
  induction m with
  | nil => simpa [eraseKey] using hnd
  | cons p rest ih =>
    obtain ⟨k', v'⟩ := p
    rw [keysOf_cons, List.nodup_cons] at hnd
    by_cases h : k' = k
    · simpa only [eraseKey, if_pos h] using hnd.2
    · simp only [eraseKey, if_neg h, keysOf_cons, List.nodup_cons]
      exact ⟨fun hmem => hnd.1 (keysOf_eraseKey_subset rest k k' hmem), ih hnd.2⟩

theorem keysOf_updateRetryFailure (m : Ledger) (k : String) (rc : Int)
    (now : String) : keysOf (updateRetryFailure m k rc now) = keysOf m := by
  induction m with
  | nil => simp [updateRetryFailure]
  | cons p rest ih =>
    obtain ⟨k', v'⟩ := p
    by_cases h : k' = k
    · simp only [updateRetryFailure, if_pos h, keysOf_cons]
    · simp only [updateRetryFailure, if_neg h, keysOf_cons, ih]

theorem lookupKey_eraseKey_other (m : Ledger) (k k1 : String) (h : k1 ≠ k) :
    lookupKey (eraseKey m k) k1 = lookupKey m k1 := by
  induction m with
  | nil => simp [eraseKey]
  | cons p rest ih =>
    obtain ⟨k', v'⟩ := p
    by_cases hk : k' = k
    · subst hk
      rw [show eraseKey ((k', v') :: rest) k' = rest from if_pos rfl]
      rw [lookupKey_cons, if_neg (Ne.symm h)]
    · rw [show eraseKey ((k', v') :: rest) k = (k', v') :: eraseKey rest k
        from if_neg hk]
      rw [lookupKey_cons, lookupKey_cons]
      by_cases hk1 : k' = k1
      · rw [if_pos hk1, if_pos hk1]
      · rw [if_neg hk1, if_neg hk1]
        exact ih

theorem lookupKey_updateRetryFailure_other (m : Ledger) (k k1 : String)
    (rc : Int) (now : String) (h : k1 ≠ k) :
    lookupKey (updateRetryFailure m k rc now) k1 = lookupKey m k1 := by
  induction m with
  | nil => simp [updateRetryFailure]
  | cons p rest ih =>
    obtain ⟨k', v'⟩ := p
    by_cases hk : k' = k
    · subst hk
      simp only [updateRetryFailure, if_pos rfl, lookupKey, if_neg (Ne.symm h)]
    · simp only [updateRetryFailure, if_neg hk, lookupKey]
      by_cases hk1 : k' = k1
      · rw [if_pos hk1, if_pos hk1]
      · rw [if_neg hk1, if_neg hk1]
        exact ih

theorem not_mem_keysOf_eraseKey (m : Ledger) (k : String)
    (hnd : (keysOf m).Nodup) : k ∉ keysOf (eraseKey m k) := by
  induction m with
  | nil => simp [eraseKey, keysOf]
  | cons p rest ih =>
    obtain ⟨k', v'⟩ := p
    rw [keysOf_cons, List.nodup_cons] at hnd
    by_cases h : k' = k
    · subst h
      simpa only [eraseKey, if_pos rfl] using hnd.1
    · simp only [eraseKey, if_neg h, keysOf_cons, List.mem_cons, not_or]
      exact ⟨fun he => h he.symm, ih hnd.2⟩

theorem lookupKey_none_of_not_mem (m : Ledger) (k : String)
    (h : k ∉ keysOf m) : lookupKey m k = none := by
  induction m with
  | nil => simp [lookupKey]
  | cons p rest ih =>
    obtain ⟨k', v'⟩ := p
    rw [keysOf_cons, List.mem_cons, not_or] at h
    rw [lookupKey_cons,
      if_neg (show ¬(k' = k) from fun he => h.1 he.symm)]
    exact ih h.2

theorem lookupKey_eraseKey_self (m : Ledger) (k : String)
    (hnd : (keysOf m).Nodup) : lookupKey (eraseKey m k) k = none :=
  lookupKey_none_of_not_mem _ _ (not_mem_keysOf_eraseKey m k hnd)

theorem mem_keysOf_of_lookupKey {m : Ledger} {k : String} {v : FailureRecord}
    (h : lookupKey m k = some v) : k ∈ keysOf m := by
  by_contra hk
  rw [lookupKey_none_of_not_mem m k hk] at h
  exact Option.noConfusion h

/-! ## The environment oracle and the active-process table

`active_processes` is a Python dict `pid -> (date, Popen, start_time)`; we
model it as an association list of `(pid, date)` (the `Popen` handle and
start time only feed logging).  The oracle decides scheduling: `poll pid t`
is `Popen.poll()` for `pid` during the sweep at tick `t` (`none` = still
running, `some rc` = exited with code `rc`), `launch k` is the pid created
by the `k`-th `Popen` call of the pass (`none` = the launch raised), and
`now t` is the timestamp string at tick `t`. -/

abbrev Pid := Nat

structure Env where
  poll : Pid → Nat → Option Int
  launch : Nat → Option Pid
  now : Nat → String

/-- Python dict assignment `active_processes[pid] = (date, ...)`. -/
def setPid : List (Pid × Date) → Pid → Date → List (Pid × Date)
  | [], p, d => [(p, d)]
  | (p', d') :: rest, p, d =>
    if p' = p then (p, d) :: rest else (p', d') :: setPid rest p d

/-- `del active_processes[pid]`. -/
def erasePid : List (Pid × Date) → Pid → List (Pid × Date)
  | [], _ => []
  | (p', d') :: rest, p => if p' = p then rest else (p', d') :: erasePid rest p

/-- The launch loop shared (by duplication) between
`driver.py::run` and `retry_failed.py::main`:
`while len(active) < bound and date_index < total:` pop the next date,
attempt to launch; on success record the handle, on exception log and
continue with the next date.  Returns the remaining dates, the next launch
counter, and the new active table. -/
def launchGo (env : Env) (bound : Nat) :
    List Date → Nat → List (Pid × Date) → List Date × Nat × List (Pid × Date)
  | [], ctr, act => ([], ctr, act)
  | d :: rest, ctr, act =>
    if act.length < bound then
      match env.launch ctr with
      | some pid => launchGo env bound rest (ctr + 1) (setPid act pid d)
      | none => launchGo env bound rest (ctr + 1) act
    else (d :: rest, ctr, act)

/-! ## The retry pass (`src/src/retry_failed.py::main`) -/

/-- `MAX_RETRY_PROCESSES = 2` (hard-coded in `retry_failed.py`). -/
def MAX_RETRY_PROCESSES : Nat := 2

structure RetryState where
  pending : List Date
  launchCtr : Nat
  active : List (Pid × Date)
  completed : List Date
  failed : List Date
  remaining : Ledger
deriving DecidableEq, Repr

/-- Handling of one entry of the `list(active_processes.items())` snapshot
(`retry_failed.py` lines 174–193): poll; on exit 0 append to
`completed_dates` and delete the canonical key from `remaining_failures`
if present; on nonzero exit append to `failed_dates` and update the
canonical key's record in place if present. -/
def retryHandleOne (env : Env) (t : Nat) (st : RetryState) (pd : Pid × Date) :
    RetryState :=
  match env.poll pd.1 t with
  | none => st
  | some rc =>
    if rc = 0 then
      { st with completed := st.completed ++ [pd.2],
                remaining := eraseKey st.remaining (fmtDate pd.2) }
    else
      { st with failed := st.failed ++ [pd.2],
                remaining := updateRetryFailure st.remaining (fmtDate pd.2)
                  rc (env.now t) }

/-- `completed_pids`: the pids observed terminated during a sweep of the
snapshot. -/
def donePidsOf (env : Env) (t : Nat) (act : List (Pid × Date)) : List Pid :=
  act.filterMap (fun pd => if (env.poll pd.1 t).isSome then some pd.1 else none)

/-- The completion sweep of one loop iteration: process every snapshot
entry, then `del active_processes[pid]` for each collected pid. -/
def retryCheck (env : Env) (t : Nat) (st : RetryState) : RetryState :=
  let st1 := st.active.foldl (retryHandleOne env t) st
  { st1 with active := (donePidsOf env t st.active).foldl erasePid st1.active }

/-- The launch phase of one loop iteration (bound `MAX_RETRY_PROCESSES`). -/
def retryLaunchLoop (env : Env) (st : RetryState) : RetryState :=
  let r := launchGo env MAX_RETRY_PROCESSES st.pending st.launchCtr st.active
  { st with pending := r.1, launchCtr := r.2.1, active := r.2.2 }

/-- One iteration of `while date_index < total or active_processes:`:
completion sweep, removal, then the launch loop (the periodic memory log
and the 1-second sleep do not touch this state). -/
def retryStep (env : Env) (t : Nat) (st : RetryState) : RetryState :=
  retryLaunchLoop env (retryCheck env t st)

/-- `while date_index < total or active_processes:` exit condition. -/
def retryDrained (st : RetryState) : Bool :=
  st.pending.isEmpty && st.active.isEmpty

/-! ### Generic fuelled loop -/

def iterWith {α : Type} (step : Nat → α → α) : Nat → Nat → α → α
  | _, 0, s => s
  | t, k + 1, s => iterWith step (t + 1) k (step t s)

def loopWith {α : Type} (step : Nat → α → α) (isDone : α → Bool) :
    Nat → Nat → α → Option α
  | 0, _, s => if isDone s then some s else none
  | fuel + 1, t, s =>
    if isDone s then some s else loopWith step isDone fuel (t + 1) (step t s)

theorem iterWith_succ {α : Type} (step : Nat → α → α) (t k : Nat) (s : α) :
    iterWith step t (k + 1) s = iterWith step (t + 1) k (step t s) := rfl

theorem iterWith_fix {α : Type} (step : Nat → α → α) {s : α}
    (hfix : ∀ u, step u s = s) : ∀ t k, iterWith step t k s = s := by
  intro t k
  induction k generalizing t with
  | zero => rfl
  | succ k ih => rw [iterWith_succ, hfix t]; exact ih (t + 1)

theorem loopWith_eq_iterWith {α : Type} (step : Nat → α → α)
    (isDone : α → Bool)
    (hfix : ∀ u s, isDone s = true → step u s = s) :
    ∀ fuel t s final, loopWith step isDone fuel t s = some final →
      final = iterWith step t fuel s ∧ isDone final = true := by
  intro fuel
  induction fuel with
  | zero =>
    intro t s final h
    unfold loopWith at h
    split at h
    · cases h
      exact ⟨rfl, by assumption⟩
    · exact Option.noConfusion h
  | succ fuel ih =>
    intro t s final h
    unfold loopWith at h
    split at h
    · cases h
      rename_i hdone
      refine ⟨?_, hdone⟩
      rw [iterWith_succ, hfix t s hdone]
      exact (iterWith_fix step (fun u => hfix u s hdone) (t + 1) fuel).symm
    · exact ih (t + 1) (step t s) final h

/-- After a successful drain, all later iterates stay at the final state. -/
theorem iterWith_stable {α : Type} (step : Nat → α → α) {s : α}
    (hfix : ∀ u, step u s = s) (t k : Nat) : iterWith step t k s = s :=
  iterWith_fix step hfix t k

/-! ### Assembling the retry pass -/

def initRetryState (m : Ledger) : RetryState :=
  { pending := (keysOf m).filterMap parseDateKey,
    launchCtr := 0, active := [], completed := [], failed := [],
    remaining := m }

def retryLoop (env : Env) (fuel : Nat) (st : RetryState) : Option RetryState :=
  loopWith (retryStep env) retryDrained fuel 0 st

def retryIterN (env : Env) (k : Nat) (st : RetryState) : RetryState :=
  iterWith (retryStep env) 0 k st

/-- The observable outcome of `retry_failed.py::main`: the content written
to `ultimate_failures.json` (`none` when the script returned without
writing it) and the process exit code. -/
structure RetryOutcome where
  terminal : Option Ledger
  exitCode : Nat
deriving DecidableEq, Repr

/-- `retry_failed.py::main`, from the ledger-file read to the return:
* file absent → write `{}` to `ultimate_failures.json`, return 0;
* file unreadable → log the error and return 1 (nothing written);
* empty mapping → write `{}`, return 0;
* otherwise parse the keys (warning and skip on `strptime` failure), drain
  the pool loop, write `remaining_failures` once, and return 1 iff
  `failed_dates` is nonempty.
`none` is returned when `fuel` ticks do not drain the loop. -/
def retryMain (env : Env) (fuel : Nat) (file : LedgerFile) :
    Option RetryOutcome :=
  match file with
  | .absent => some ⟨some [], 0⟩
  | .corrupt => some ⟨none, 1⟩
  | .content m =>
    if m.isEmpty then some ⟨some [], 0⟩
    else
      match retryLoop env fuel (initRetryState m) with
      | some final =>
        some ⟨some final.remaining, if final.failed.isEmpty then 0 else 1⟩
      | none => none

/-! ### Retry machine basic lemmas -/

theorem retryHandleOne_active (env : Env) (t : Nat) (st : RetryState)
    (pd : Pid × Date) : (retryHandleOne env t st pd).active = st.active := by
  unfold retryHandleOne
  split
  · rfl
  · split <;> rfl

theorem retryHandleOne_pending (env : Env) (t : Nat) (st : RetryState)
    (pd : Pid × Date) : (retryHandleOne env t st pd).pending = st.pending := by
  unfold retryHandleOne
  split
  · rfl
  · split <;> rfl

theorem retryHandleOne_launchCtr (env : Env) (t : Nat) (st : RetryState)
    (pd : Pid × Date) :
    (retryHandleOne env t st pd).launchCtr = st.launchCtr := by
  unfold retryHandleOne
  split
  · rfl
  · split <;> rfl

theorem foldl_retryHandleOne_active (env : Env) (t : Nat) :
    ∀ (l : List (Pid × Date)) (st : RetryState),
      (l.foldl (retryHandleOne env t) st).active = st.active := by
  intro l
  induction l with
  | nil => intro st; rfl
  | cons pd l ih =>
    intro st
    rw [List.foldl_cons, ih, retryHandleOne_active]

theorem foldl_retryHandleOne_pending (env : Env) (t : Nat) :
    ∀ (l : List (Pid × Date)) (st : RetryState),
      (l.foldl (retryHandleOne env t) st).pending = st.pending := by
  intro l
  induction l with
  | nil => intro st; rfl
  | cons pd l ih =>
    intro st
    rw [List.foldl_cons, ih, retryHandleOne_pending]

/-- A drained state is a fixed point of the loop body. -/
theorem retryStep_fix (env : Env) (t : Nat) (st : RetryState)
    (h : retryDrained st = true) : retryStep env t st = st := by
  obtain ⟨pending, ctr, act, comp, fail, rem⟩ := st
  unfold retryDrained at h
  rw [Bool.and_eq_true] at h
  obtain ⟨h1, h2⟩ := h
  cases pending with
  | cons a l => simp [List.isEmpty] at h1
  | nil =>
    cases act with
    | cons a l => simp [List.isEmpty] at h2
    | nil => rfl

theorem retryLoop_final (env : Env) {fuel : Nat} {st final : RetryState}
    (h : retryLoop env fuel st = some final) :
    final = iterWith (retryStep env) 0 fuel st ∧ retryDrained final = true :=
  loopWith_eq_iterWith (retryStep env) retryDrained
    (fun u s hs => retryStep_fix env u s hs) fuel 0 st final h

/-! ## The main-pass driver

Two variants ship in the repository.  `src/src/driver.py` logs each failure
to a per-date file `failed_jobs/<date>.json` (`jobsDir` below) and never
touches `data/failed_jobs.json`; `src/pipeline/src/driver.py` reads,
updates and rewrites the single document `data/failed_jobs.json`
(`dataLedger` below) and clears it at the start of `run()`.  Both poll with
the same `check_completed_processes` loop and the same launch loop.  The
state carries both failure sinks so the two variants can be compared. -/

structure DriverState where
  pending : List Date
  launchCtr : Nat
  active : List (Pid × Date)
  completed : List Date
  failed : List Date
  dataLedger : LedgerFile
  jobsDir : Ledger
deriving DecidableEq, Repr

/-- One snapshot entry of `check_completed_processes` in the pipeline
variant: exit 0 appends to `completed_dates`; nonzero exit appends to
`failed_dates` and calls `log_failure` on `data/failed_jobs.json`. -/
def pipelineHandleOne (env : Env) (t : Nat) (st : DriverState)
    (pd : Pid × Date) : DriverState :=
  match env.poll pd.1 t with
  | none => st
  | some rc =>
    if rc = 0 then
      { st with completed := st.completed ++ [pd.2] }
    else
      { st with failed := st.failed ++ [pd.2],
                dataLedger := log_failure st.dataLedger pd.2 rc (env.now t) }

/-- One snapshot entry of `check_completed_processes` in the `src/src`
variant: identical control flow, but `log_failure` writes the per-date
file `failed_jobs/<date>.json`. -/
def srcHandleOne (env : Env) (t : Nat) (st : DriverState)
    (pd : Pid × Date) : DriverState :=
  match env.poll pd.1 t with
  | none => st
  | some rc =>
    if rc = 0 then
      { st with completed := st.completed ++ [pd.2] }
    else
      { st with failed := st.failed ++ [pd.2],
                jobsDir := srcLogFailure st.jobsDir pd.2 rc (env.now t) }

/-- `check_completed_processes` (pipeline variant): sweep the snapshot,
then delete every pid observed terminated. -/
def pipelineCheck (env : Env) (t : Nat) (st : DriverState) : DriverState :=
  let st1 := st.active.foldl (pipelineHandleOne env t) st
  { st1 with active := (donePidsOf env t st.active).foldl erasePid st1.active }

/-- `check_completed_processes` (`src/src` variant). -/
def srcCheck (env : Env) (t : Nat) (st : DriverState) : DriverState :=
  let st1 := st.active.foldl (srcHandleOne env t) st
  { st1 with active := (donePidsOf env t st.active).foldl erasePid st1.active }

/-- The launch phase of one `run()` loop iteration, bound `maxP`
(`self.max_processes`). -/
def driverLaunchLoop (env : Env) (maxP : Nat) (st : DriverState) :
    DriverState :=
  let r := launchGo env maxP st.pending st.launchCtr st.active
  { st with pending := r.1, launchCtr := r.2.1, active := r.2.2 }

/-- One iteration of the pipeline driver's
`while date_index < total_dates or self.active_processes:` loop. -/
def pipelineStep (env : Env) (maxP : Nat) (t : Nat) (st : DriverState) :
    DriverState :=
  driverLaunchLoop env maxP (pipelineCheck env t st)

/-- One iteration of the `src/src` driver's main loop. -/
def srcStep (env : Env) (maxP : Nat) (t : Nat) (st : DriverState) :
    DriverState :=
  driverLaunchLoop env maxP (srcCheck env t st)

def driverDrained (st : DriverState) : Bool :=
  st.pending.isEmpty && st.active.isEmpty

theorem pipelineStep_fix (env : Env) (maxP t : Nat) (st : DriverState)
    (h : driverDrained st = true) : pipelineStep env maxP t st = st := by
  obtain ⟨pending, ctr, act, comp, fail, led, dir⟩ := st
  unfold driverDrained at h
  rw [Bool.and_eq_true] at h
  obtain ⟨h1, h2⟩ := h
  cases pending with
  | cons a l => simp [List.isEmpty] at h1
  | nil =>
    cases act with
    | cons a l => simp [List.isEmpty] at h2
    | nil => rfl

theorem srcStep_fix (env : Env) (maxP t : Nat) (st : DriverState)
    (h : driverDrained st = true) : srcStep env maxP t st = st := by
  obtain ⟨pending, ctr, act, comp, fail, led, dir⟩ := st
  unfold driverDrained at h
  rw [Bool.and_eq_true] at h
  obtain ⟨h1, h2⟩ := h
  cases pending with
  | cons a l => simp [List.isEmpty] at h1
  | nil =>
    cases act with
    | cons a l => simp [List.isEmpty] at h2
    | nil => rfl

/-- Initial driver state for a date range.  The pipeline variant's `run()`
clears `data/failed_jobs.json` to `{}` before the loop; the `src/src`
variant performs no such reset, so whatever the file held before the run
(`initLedger`) is still there. -/
def pipelineInitState (dates : List Date) : DriverState :=
  { pending := dates, launchCtr := 0, active := [], completed := [],
    failed := [], dataLedger := clearLedger, jobsDir := [] }

def srcInitState (dates : List Date) (initLedger : LedgerFile)
    (initJobsDir : Ledger) : DriverState :=
  { pending := dates, launchCtr := 0, active := [], completed := [],
    failed := [], dataLedger := initLedger, jobsDir := initJobsDir }

def pipelineLoop (env : Env) (maxP fuel : Nat) (st : DriverState) :
    Option DriverState :=
  loopWith (pipelineStep env maxP) driverDrained fuel 0 st

def srcLoop (env : Env) (maxP fuel : Nat) (st : DriverState) :
    Option DriverState :=
  loopWith (srcStep env maxP) driverDrained fuel 0 st

theorem pipelineLoop_final (env : Env) {maxP fuel : Nat}
    {st final : DriverState} (h : pipelineLoop env maxP fuel st = some final) :
    final = iterWith (pipelineStep env maxP) 0 fuel st ∧
      driverDrained final = true :=
  loopWith_eq_iterWith (pipelineStep env maxP) driverDrained
    (fun u s hs => pipelineStep_fix env maxP u s hs) fuel 0 st final h

theorem srcLoop_final (env : Env) {maxP fuel : Nat}
    {st final : DriverState} (h : srcLoop env maxP fuel st = some final) :
    final = iterWith (srcStep env maxP) 0 fuel st ∧
      driverDrained final = true :=
  loopWith_eq_iterWith (srcStep env maxP) driverDrained
    (fun u s hs => srcStep_fix env maxP u s hs) fuel 0 st final h

/-- Observable outcome of a full driver run (`run()` plus the `__main__`
exit): the main pass's completed/failed dates, the contents of
`data/failed_jobs.json` when the run ends (this is exactly what a
subsequent `retry_failed.py` reads), the retry step's outcome when it was
invoked, and the driver process exit code.  `run()` returns
`len(self.failed_dates) == 0` and `__main__` maps that to exit 0/1; the
retry subprocess's exit code is only logged, never used. -/
structure RunOutcome where
  mainCompleted : List Date
  mainFailed : List Date
  finalLedger : LedgerFile
  retryRun : Option (Option RetryOutcome)
  exitCode : Nat
deriving DecidableEq, Repr

/-- `pipeline/src/driver.py::run` + `__main__`: clear the ledger, drain the
pool, then launch `src/retry_failed.py` iff `failed_dates` is nonempty. -/
def pipelineRun (env renv : Env) (maxP fuel rfuel : Nat)
    (dates : List Date) : Option RunOutcome :=
  match pipelineLoop env maxP fuel (pipelineInitState dates) with
  | some final =>
    some { mainCompleted := final.completed,
           mainFailed := final.failed,
           finalLedger := final.dataLedger,
           retryRun := if final.failed.isEmpty then none
                       else some (retryMain renv rfuel final.dataLedger),
           exitCode := if final.failed.isEmpty then 0 else 1 }
  | none => none

/-- `src/src/driver.py::run` + `__main__`: no ledger reset anywhere; the
failure records go to `failed_jobs/<date>.json` while the retry script it
launches reads `data/failed_jobs.json`, i.e. whatever `initLedger` was. -/
def srcRun (env renv : Env) (maxP fuel rfuel : Nat) (dates : List Date)
    (initLedger : LedgerFile) (initJobsDir : Ledger) : Option RunOutcome :=
  match srcLoop env maxP fuel (srcInitState dates initLedger initJobsDir) with
  | some final =>
    some { mainCompleted := final.completed,
           mainFailed := final.failed,
           finalLedger := final.dataLedger,
           retryRun := if final.failed.isEmpty then none
                       else some (retryMain renv rfuel final.dataLedger),
           exitCode := if final.failed.isEmpty then 0 else 1 }
  | none => none

/-! ## Active-table lemmas -/

theorem setPid_length (a : List (Pid × Date)) (p : Pid) (d : Date) :
    (setPid a p d).length ≤ a.length + 1 := by
  induction a with
  | nil => simp [setPid]
  | cons q rest ih =>
    obtain ⟨p', d'⟩ := q
    by_cases h : p' = p
    · simp [setPid, h]
    · simp only [setPid, if_neg h, List.length_cons]
      omega

theorem erasePid_length (a : List (Pid × Date)) (p : Pid) :
    (erasePid a p).length ≤ a.length := by
  induction a with
  | nil => simp [erasePid]
  | cons q rest ih =>
    obtain ⟨p', d'⟩ := q
    by_cases h : p' = p
    · simp only [erasePid, if_pos h, List.length_cons]
      omega
    · simp only [erasePid, if_neg h, List.length_cons]
      omega

theorem foldl_erasePid_length (ps : List Pid) :
    ∀ a : List (Pid × Date), ((ps.foldl erasePid a)).length ≤ a.length := by
  induction ps with
  | nil => intro a; simp
  | cons p ps ih =>
    intro a
    calc ((p :: ps).foldl erasePid a).length
        = (ps.foldl erasePid (erasePid a p)).length := rfl
      _ ≤ (erasePid a p).length := ih _
      _ ≤ a.length := erasePid_length a p

theorem mem_setPid (a : List (Pid × Date)) (p : Pid) (d : Date) :
    ∀ q ∈ setPid a p d, q ∈ a ∨ q = (p, d) := by
  induction a with
  | nil => simp [setPid]
  | cons q0 rest ih =>
    obtain ⟨p', d'⟩ := q0
    intro q hq
    by_cases h : p' = p
    · simp only [setPid, if_pos h, List.mem_cons] at hq
      rcases hq with hq | hq
      · exact Or.inr hq
      · exact Or.inl (List.mem_cons_of_mem _ hq)
    · simp only [setPid, if_neg h, List.mem_cons] at hq
      rcases hq with hq | hq
      · exact Or.inl (by simp [hq])
      · rcases ih q hq with h1 | h1
        · exact Or.inl (List.mem_cons_of_mem _ h1)
        · exact Or.inr h1

theorem mem_erasePid (a : List (Pid × Date)) (p : Pid) :
    ∀ q ∈ erasePid a p, q ∈ a := by
  induction a with
  | nil => simp [erasePid]
  | cons q0 rest ih =>
    obtain ⟨p', d'⟩ := q0
    intro q hq
    by_cases h : p' = p
    · simp only [erasePid, if_pos h] at hq
      exact List.mem_cons_of_mem _ hq
    · simp only [erasePid, if_neg h, List.mem_cons] at hq
      rcases hq with hq | hq
      · simp [hq]
      · exact List.mem_cons_of_mem _ (ih q hq)

theorem mem_foldl_erasePid (ps : List Pid) :
    ∀ (a : List (Pid × Date)) (q : Pid × Date),
      q ∈ ps.foldl erasePid a → q ∈ a := by
  induction ps with
  | nil => intro a q h; simpa using h
  | cons p ps ih =>
    intro a q h
    exact mem_erasePid a p q (ih (erasePid a p) q h)

/-! ## Launch-loop lemmas -/

/-- The launch loop never exceeds the bound: a new worker is recorded only
while the active table is strictly below the bound, and recording adds at
most one entry. -/
theorem launchGo_length (env : Env) (bound : Nat) :
    ∀ (ds : List Date) (ctr : Nat) (act : List (Pid × Date)),
      act.length ≤ bound →
      ((launchGo env bound ds ctr act).2.2).length ≤ bound := by
  intro ds
  induction ds with
  | nil => intro ctr act h; simpa [launchGo] using h
  | cons d rest ih =>
    intro ctr act h
    unfold launchGo
    by_cases hlt : act.length < bound
    · rw [if_pos hlt]
      cases hl : env.launch ctr with
      | some pid =>
        exact ih (ctr + 1) (setPid act pid d)
          (le_trans (setPid_length act pid d) (by omega))
      | none => exact ih (ctr + 1) act h
    · rw [if_neg hlt]
      exact h

/-- When the table is at (or above) the bound, the launch loop starts
nothing and changes nothing. -/
theorem launchGo_at_bound (env : Env) (bound : Nat) (ds : List Date)
    (ctr : Nat) (act : List (Pid × Date)) (h : ¬ act.length < bound) :
    launchGo env bound ds ctr act = (ds, ctr, act) := by
  cases ds with
  | nil => rfl
  | cons d rest => unfold launchGo; rw [if_neg h]

/-- Every entry of the table after the launch loop was already active or
carries one of the offered dates. -/
theorem launchGo_mem (env : Env) (bound : Nat) :
    ∀ (ds : List Date) (ctr : Nat) (act : List (Pid × Date)),
      ∀ q ∈ (launchGo env bound ds ctr act).2.2, q ∈ act ∨ q.2 ∈ ds := by
  intro ds
  induction ds with
  | nil =>
    intro ctr act q hq
    exact Or.inl (by simpa [launchGo] using hq)
  | cons d rest ih =>
    intro ctr act q hq
    unfold launchGo at hq
    by_cases hlt : act.length < bound
    · rw [if_pos hlt] at hq
      cases hl : env.launch ctr with
      | some pid =>
        rw [hl] at hq
        rcases ih (ctr + 1) (setPid act pid d) q hq with h1 | h1
        · rcases mem_setPid act pid d q h1 with h2 | h2
          · exact Or.inl h2
          · exact Or.inr (by simp [h2])
        · exact Or.inr (List.mem_cons_of_mem _ h1)
      | none =>
        rw [hl] at hq
        rcases ih (ctr + 1) act q hq with h1 | h1
        · exact Or.inl h1
        · exact Or.inr (List.mem_cons_of_mem _ h1)
    · rw [if_neg hlt] at hq
      exact Or.inl hq

/-- The dates still pending after the launch loop come from the offered
dates. -/
theorem launchGo_pending_subset (env : Env) (bound : Nat) :
    ∀ (ds : List Date) (ctr : Nat) (act : List (Pid × Date)),
      ∀ d ∈ (launchGo env bound ds ctr act).1, d ∈ ds := by
  intro ds
  induction ds with
  | nil => intro ctr act d hd; simp [launchGo] at hd
  | cons d0 rest ih =>
    intro ctr act d hd
    unfold launchGo at hd
    by_cases hlt : act.length < bound
    · rw [if_pos hlt] at hd
      cases hl : env.launch ctr with
      | some pid =>
        rw [hl] at hd
        exact List.mem_cons_of_mem _ (ih (ctr + 1) (setPid act pid d0) d hd)
      | none =>
        rw [hl] at hd
        exact List.mem_cons_of_mem _ (ih (ctr + 1) act d hd)
    · rw [if_neg hlt] at hd
      exact hd

/-- A failing launch (`Popen` raised, `launch_subprocess` returned `None`)
drops its date and continues with the next one. -/
theorem launchGo_launch_failure (env : Env) (bound : Nat) (d : Date)
    (rest : List Date) (ctr : Nat) (act : List (Pid × Date))
    (hlt : act.length < bound) (hfail : env.launch ctr = none) :
    launchGo env bound (d :: rest) ctr act =
      launchGo env bound rest (ctr + 1) act := by
  unfold launchGo
  rw [if_pos hlt, hfail]
  cases rest <;> rfl

/-! ## Outcome classification

`return_code == 0` is a success; any other observed `return_code` is a
failure (`driver.py` lines 223–231, `retry_failed.py` lines 181–193). -/

def pollSucceeded (env : Env) (t : Nat) (pd : Pid × Date) : Bool :=
  decide (env.poll pd.1 t = some 0)

def pollFailed (env : Env) (t : Nat) (pd : Pid × Date) : Bool :=
  (env.poll pd.1 t).isSome && !(pollSucceeded env t pd)

/-! ## Retry sweep characterization -/

theorem retryHandleOne_none (env : Env) (t : Nat) (st : RetryState)
    (pd : Pid × Date) (hp : env.poll pd.1 t = none) :
    retryHandleOne env t st pd = st := by
  unfold retryHandleOne; rw [hp]

theorem retryHandleOne_success (env : Env) (t : Nat) (st : RetryState)
    (pd : Pid × Date) (hp : env.poll pd.1 t = some 0) :
    retryHandleOne env t st pd =
      { st with completed := st.completed ++ [pd.2],
                remaining := eraseKey st.remaining (fmtDate pd.2) } := by
  unfold retryHandleOne; rw [hp]; simp

theorem retryHandleOne_failure (env : Env) (t : Nat) (st : RetryState)
    (pd : Pid × Date) (rc : Int) (hp : env.poll pd.1 t = some rc)
    (hrc : rc ≠ 0) :
    retryHandleOne env t st pd =
      { st with failed := st.failed ++ [pd.2],
                remaining := updateRetryFailure st.remaining (fmtDate pd.2)
                  rc (env.now t) } := by
  unfold retryHandleOne; rw [hp]; simp [hrc]

theorem foldl_retryHandleOne_completed (env : Env) (t : Nat) :
    ∀ (l : List (Pid × Date)) (st : RetryState),
      (l.foldl (retryHandleOne env t) st).completed
        = st.completed ++ (l.filter (pollSucceeded env t)).map Prod.snd := by
  intro l
  induction l with
  | nil => intro st; simp
  | cons pd l ih =>
    intro st
    rw [List.foldl_cons, ih]
    cases hp : env.poll pd.1 t with
    | none =>
      rw [show retryHandleOne env t st pd = st from by
        unfold retryHandleOne; rw [hp]]
      rw [List.filter_cons_of_neg (by simp [pollSucceeded, hp])]
    | some rc =>
      by_cases hrc : rc = 0
      · subst hrc
        rw [show retryHandleOne env t st pd =
            { st with completed := st.completed ++ [pd.2],
                      remaining := eraseKey st.remaining (fmtDate pd.2) } from by
          unfold retryHandleOne; rw [hp]; simp]
        rw [List.filter_cons_of_pos (by simp [pollSucceeded, hp])]
        simp
      · rw [show retryHandleOne env t st pd =
            { st with failed := st.failed ++ [pd.2],
                      remaining := updateRetryFailure st.remaining
                        (fmtDate pd.2) rc (env.now t) } from by
          unfold retryHandleOne; rw [hp]; simp [hrc]]
        rw [List.filter_cons_of_neg (by simp [pollSucceeded, hp, hrc])]

theorem foldl_retryHandleOne_failed (env : Env) (t : Nat) :
    ∀ (l : List (Pid × Date)) (st : RetryState),
      (l.foldl (retryHandleOne env t) st).failed
        = st.failed ++ (l.filter (pollFailed env t)).map Prod.snd := by
  intro l
  induction l with
  | nil => intro st; simp
  | cons pd l ih =>
    intro st
    rw [List.foldl_cons, ih]
    cases hp : env.poll pd.1 t with
    | none =>
      rw [show retryHandleOne env t st pd = st from by
        unfold retryHandleOne; rw [hp]]
      rw [List.filter_cons_of_neg (by simp [pollFailed, hp])]
    | some rc =>
      by_cases hrc : rc = 0
      · subst hrc
        rw [show retryHandleOne env t st pd =
            { st with completed := st.completed ++ [pd.2],
                      remaining := eraseKey st.remaining (fmtDate pd.2) } from by
          unfold retryHandleOne; rw [hp]; simp]
        rw [List.filter_cons_of_neg (by simp [pollFailed, pollSucceeded, hp])]
      · rw [show retryHandleOne env t st pd =
            { st with failed := st.failed ++ [pd.2],
                      remaining := updateRetryFailure st.remaining
                        (fmtDate pd.2) rc (env.now t) } from by
          unfold retryHandleOne; rw [hp]; simp [hrc]]
        rw [List.filter_cons_of_pos (by simp [pollFailed, pollSucceeded, hp, hrc])]
        simp

/-- The loop body's `failed_dates` evolution: exactly the dates observed to
exit nonzero during the sweep are appended, in snapshot order. -/
theorem retryStep_failed (env : Env) (t : Nat) (st : RetryState) :
    (retryStep env t st).failed
      = st.failed ++ (st.active.filter (pollFailed env t)).map Prod.snd := by
  show (st.active.foldl (retryHandleOne env t) st).failed = _
  exact foldl_retryHandleOne_failed env t st.active st

theorem retryStep_completed (env : Env) (t : Nat) (st : RetryState) :
    (retryStep env t st).completed
      = st.completed ++ (st.active.filter (pollSucceeded env t)).map Prod.snd := by
  show (st.active.foldl (retryHandleOne env t) st).completed = _
  exact foldl_retryHandleOne_completed env t st.active st

theorem retryStep_remaining (env : Env) (t : Nat) (st : RetryState) :
    (retryStep env t st).remaining
      = (st.active.foldl (retryHandleOne env t) st).remaining := rfl

/-! ## Evolution of `remaining_failures` -/

/-- A key absent from `remaining_failures` is never re-added: the sweep
only deletes keys or updates existing ones. -/
theorem retryHandleOne_keys_mono (env : Env) (t : Nat) (st : RetryState)
    (pd : Pid × Date) (k : String) (h : k ∉ keysOf st.remaining) :
    k ∉ keysOf (retryHandleOne env t st pd).remaining := by
  cases hp : env.poll pd.1 t with
  | none => rw [retryHandleOne_none env t st pd hp]; exact h
  | some rc =>
    by_cases hrc : rc = 0
    · subst hrc
      rw [retryHandleOne_success env t st pd hp]
      exact fun hmem => h (keysOf_eraseKey_subset _ _ _ hmem)
    · rw [retryHandleOne_failure env t st pd rc hp hrc]
      show k ∉ keysOf (updateRetryFailure st.remaining (fmtDate pd.2) rc
        (env.now t))
      rw [keysOf_updateRetryFailure]
      exact h

theorem retryHandleOne_nodupKeys (env : Env) (t : Nat) (st : RetryState)
    (pd : Pid × Date) (h : (keysOf st.remaining).Nodup) :
    (keysOf (retryHandleOne env t st pd).remaining).Nodup := by
  cases hp : env.poll pd.1 t with
  | none => rw [retryHandleOne_none env t st pd hp]; exact h
  | some rc =>
    by_cases hrc : rc = 0
    · subst hrc
      rw [retryHandleOne_success env t st pd hp]
      exact nodup_keysOf_eraseKey _ _ h
    · rw [retryHandleOne_failure env t st pd rc hp hrc]
      show (keysOf (updateRetryFailure st.remaining (fmtDate pd.2) rc
        (env.now t))).Nodup
      rw [keysOf_updateRetryFailure]
      exact h

theorem foldl_retryHandleOne_keys_mono (env : Env) (t : Nat) :
    ∀ (l : List (Pid × Date)) (st : RetryState) (k : String),
      k ∉ keysOf st.remaining →
      k ∉ keysOf ((l.foldl (retryHandleOne env t) st).remaining) := by
  intro l
  induction l with
  | nil => intro st k h; exact h
  | cons pd l ih =>
    intro st k h
    exact ih _ k (retryHandleOne_keys_mono env t st pd k h)

theorem foldl_retryHandleOne_nodupKeys (env : Env) (t : Nat) :
    ∀ (l : List (Pid × Date)) (st : RetryState),
      (keysOf st.remaining).Nodup →
      (keysOf ((l.foldl (retryHandleOne env t) st).remaining)).Nodup := by
  intro l
  induction l with
  | nil => intro st h; exact h
  | cons pd l ih =>
    intro st h
    exact ih _ (retryHandleOne_nodupKeys env t st pd h)

/-- A date observed to exit 0 during the sweep has its canonical key absent
from `remaining_failures` when the sweep ends. -/
theorem foldl_retryHandleOne_success_kills (env : Env) (t : Nat) :
    ∀ (l : List (Pid × Date)) (st : RetryState) (pd : Pid × Date),
      (keysOf st.remaining).Nodup → pd ∈ l → env.poll pd.1 t = some 0 →
      fmtDate pd.2 ∉ keysOf ((l.foldl (retryHandleOne env t) st).remaining) := by
  intro l
  induction l with
  | nil => intro st pd _ hmem; exact absurd hmem (by simp)
  | cons q l ih =>
    intro st pd hnd hmem hp
    rw [List.mem_cons] at hmem
    rcases hmem with hmem | hmem
    · subst hmem
      rw [List.foldl_cons]
      apply foldl_retryHandleOne_keys_mono
      rw [retryHandleOne_success env t st pd hp]
      exact not_mem_keysOf_eraseKey _ _ hnd
    · rw [List.foldl_cons]
      exact ih _ pd (retryHandleOne_nodupKeys env t st q hnd) hmem hp

theorem retryStep_nodupKeys (env : Env) (t : Nat) (st : RetryState)
    (h : (keysOf st.remaining).Nodup) :
    (keysOf (retryStep env t st).remaining).Nodup := by
  rw [retryStep_remaining]
  exact foldl_retryHandleOne_nodupKeys env t st.active st h

theorem retryIter_nodupKeys (env : Env) :
    ∀ (n t : Nat) (st : RetryState), (keysOf st.remaining).Nodup →
      (keysOf ((iterWith (retryStep env) t n st).remaining)).Nodup := by
  intro n
  induction n with
  | zero => intro t st h; exact h
  | succ n ih =>
    intro t st h
    rw [iterWith_succ]
    exact ih (t + 1) _ (retryStep_nodupKeys env t st h)

theorem retryIter_keys_mono (env : Env) :
    ∀ (n t : Nat) (st : RetryState) (k : String), k ∉ keysOf st.remaining →
      k ∉ keysOf ((iterWith (retryStep env) t n st).remaining) := by
  intro n
  induction n with
  | zero => intro t st k h; exact h
  | succ n ih =>
    intro t st k h
    rw [iterWith_succ]
    refine ih (t + 1) _ k ?_
    rw [retryStep_remaining]
    exact foldl_retryHandleOne_keys_mono env t st.active st k h

/-- Splitting an iterate at an intermediate tick. -/
theorem iterWith_split {α : Type} (step : Nat → α → α) (t a b : Nat) (s : α) :
    iterWith step t (a + b) s = iterWith step (t + a) b (iterWith step t a s) := by
  induction a generalizing t s with
  | zero => simp [iterWith]
  | succ a ih =>
    rw [show a + 1 + b = (a + b) + 1 from by omega, iterWith_succ, iterWith_succ]
    rw [ih (t + 1) (step t s)]
    rw [show t + 1 + a = t + (a + 1) from by omega]

theorem iterWith_split0 {α : Type} (step : Nat → α → α) (a b : Nat) (s : α) :
    iterWith step 0 (a + b) s = iterWith step a b (iterWith step 0 a s) := by
  have := iterWith_split step 0 a b s
  simpa using this

theorem retryDrained_active (st : RetryState) (h : retryDrained st = true) :
    st.pending = [] ∧ st.active = [] := by
  unfold retryDrained at h
  rw [Bool.and_eq_true] at h
  constructor
  · cases hp : st.pending with
    | nil => rfl
    | cons a l => rw [hp] at h; simp [List.isEmpty] at h
  · cases ha : st.active with
    | nil => rfl
    | cons a l => rw [ha] at h; simp [List.isEmpty] at h

/-- Iterates past the drain point are frozen at the final state. -/
theorem retryIter_past_final (env : Env) {fuel : Nat} {st final : RetryState}
    (h : retryLoop env fuel st = some final) :
    ∀ k, fuel ≤ k → iterWith (retryStep env) 0 k st = final := by
  obtain ⟨hfin, hdr⟩ := retryLoop_final env h
  intro k hk
  rw [show k = fuel + (k - fuel) from by omega, iterWith_split, ← hfin]
  exact iterWith_fix (retryStep env) (fun u => retryStep_fix env u final hdr) _ _

theorem iterWith_succ_right {α : Type} (step : Nat → α → α) :
    ∀ (n t : Nat) (s : α),
      iterWith step t (n + 1) s = step (t + n) (iterWith step t n s) := by
  intro n
  induction n with
  | zero => intro t s; simp [iterWith]
  | succ n ih =>
    intro t s
    rw [iterWith_succ, ih (t + 1) (step t s), ← iterWith_succ]
    rw [show t + 1 + n = t + (n + 1) from by omega]

/-! ## In-place update of a failed record (claim C2) -/

/-- The two-field in-place mutation `retry_failed.py` applies to a record
that failed again: new `error_message`, new `last_attempt`, everything
else (in particular `variables_to_retry`) untouched. -/
def retryUpdated (r0 : FailureRecord) (rc : Int) (now : String) :
    FailureRecord :=
  { r0 with error_message := s!"Retry failed with exit code {rc}",
            last_attempt := now }

theorem updateRetryFailure_cons (k' : String) (v' : FailureRecord)
    (rest : Ledger) (k : String) (rc : Int) (now : String) :
    updateRetryFailure ((k', v') :: rest) k rc now =
      if k' = k then (k', retryUpdated v' rc now) :: rest
      else (k', v') :: updateRetryFailure rest k rc now := rfl

theorem lookupKey_updateRetryFailure_self (m : Ledger) (k : String)
    (rc : Int) (now : String) {r : FailureRecord}
    (h : lookupKey m k = some r) :
    lookupKey (updateRetryFailure m k rc now) k =
      some (retryUpdated r rc now) := by
  induction m with
  | nil => simp [lookupKey] at h
  | cons p rest ih =>
    obtain ⟨k', v'⟩ := p
    rw [lookupKey_cons] at h
    by_cases hk : k' = k
    · rw [if_pos hk] at h
      have hv : v' = r := Option.some_inj.mp h
      rw [updateRetryFailure_cons, if_pos hk, lookupKey_cons, if_pos hk, hv]
    · rw [if_neg hk] at h
      rw [updateRetryFailure_cons, if_neg hk, lookupKey_cons, if_neg hk]
      exact ih h

theorem retryUpdated_idem (r0 : FailureRecord) (a b : Int) (x y : String) :
    retryUpdated (retryUpdated r0 a x) b y = retryUpdated r0 b y := rfl

/-- Record-tracking through one sweep under "no success for key `k` at
this tick": the record stays present, and is either still the original or
carries an in-place retry update. -/
theorem foldl_retryHandleOne_track (env : Env) (t : Nat) (k : String)
    (r0 : FailureRecord) :
    ∀ (l : List (Pid × Date)) (st : RetryState),
      (∀ q ∈ l, fmtDate q.2 = k → env.poll q.1 t ≠ some 0) →
      (∃ r, lookupKey st.remaining k = some r ∧
        (r = r0 ∨ ∃ rc t', rc ≠ 0 ∧ r = retryUpdated r0 rc (env.now t'))) →
      ∃ r, lookupKey ((l.foldl (retryHandleOne env t) st).remaining) k
          = some r ∧
        (r = r0 ∨ ∃ rc t', rc ≠ 0 ∧ r = retryUpdated r0 rc (env.now t')) := by
  intro l
  induction l with
  | nil => intro st _ hP; exact hP
  | cons q l ih =>
    intro st hl hP
    rw [List.foldl_cons]
    refine ih _ (fun q' hq' => hl q' (List.mem_cons_of_mem _ hq')) ?_
    obtain ⟨r, hr, hshape⟩ := hP
    cases hp : env.poll q.1 t with
    | none =>
      rw [retryHandleOne_none env t st q hp]
      exact ⟨r, hr, hshape⟩
    | some rc =>
      by_cases hrc : rc = 0
      · subst hrc
        have hne : fmtDate q.2 ≠ k := by
          intro he
          exact hl q (List.mem_cons_self _ _) he hp
        rw [retryHandleOne_success env t st q hp]
        refine ⟨r, ?_, hshape⟩
        show lookupKey (eraseKey st.remaining (fmtDate q.2)) k = some r
        rw [lookupKey_eraseKey_other _ _ _ (fun he => hne he.symm)]
        exact hr
      · rw [retryHandleOne_failure env t st q rc hp hrc]
        by_cases hke : fmtDate q.2 = k
        · subst hke
          refine ⟨retryUpdated r rc (env.now t), ?_, ?_⟩
          · exact lookupKey_updateRetryFailure_self _ _ _ _ hr
          · rcases hshape with h0 | ⟨rc', t', hrc', hsh⟩
            · subst h0
              exact Or.inr ⟨rc, t, hrc, rfl⟩
            · subst hsh
              rw [retryUpdated_idem]
              exact Or.inr ⟨rc, t, hrc, rfl⟩
        · refine ⟨r, ?_, hshape⟩
          show lookupKey (updateRetryFailure st.remaining (fmtDate q.2) rc
            (env.now t)) k = some r
          rw [lookupKey_updateRetryFailure_other _ _ _ _ _
            (fun he => hke he.symm)]
          exact hr

/-- Once the record carries a retry update, a sweep without a success for
`k` keeps it in that (possibly re-updated) form. -/
theorem foldl_retryHandleOne_keep_updated (env : Env) (t : Nat) (k : String)
    (r0 : FailureRecord) :
    ∀ (l : List (Pid × Date)) (st : RetryState),
      (∀ q ∈ l, fmtDate q.2 = k → env.poll q.1 t ≠ some 0) →
      (∃ rc t', rc ≠ 0 ∧
        lookupKey st.remaining k = some (retryUpdated r0 rc (env.now t'))) →
      ∃ rc t', rc ≠ 0 ∧
        lookupKey ((l.foldl (retryHandleOne env t) st).remaining) k
          = some (retryUpdated r0 rc (env.now t')) := by
  intro l
  induction l with
  | nil => intro st _ hQ; exact hQ
  | cons q l ih =>
    intro st hl hQ
    rw [List.foldl_cons]
    refine ih _ (fun q' hq' => hl q' (List.mem_cons_of_mem _ hq')) ?_
    obtain ⟨rc0, t0, hrc0, hr⟩ := hQ
    cases hp : env.poll q.1 t with
    | none =>
      rw [retryHandleOne_none env t st q hp]
      exact ⟨rc0, t0, hrc0, hr⟩
    | some rc =>
      by_cases hrc : rc = 0
      · subst hrc
        have hne : fmtDate q.2 ≠ k := fun he =>
          hl q (List.mem_cons_self _ _) he hp
        rw [retryHandleOne_success env t st q hp]
        refine ⟨rc0, t0, hrc0, ?_⟩
        show lookupKey (eraseKey st.remaining (fmtDate q.2)) k = _
        rw [lookupKey_eraseKey_other _ _ _ (fun he => hne he.symm)]
        exact hr
      · rw [retryHandleOne_failure env t st q rc hp hrc]
        by_cases hke : fmtDate q.2 = k
        · subst hke
          refine ⟨rc, t, hrc, ?_⟩
          have := lookupKey_updateRetryFailure_self st.remaining
            (fmtDate q.2) rc (env.now t) hr
          rw [this, retryUpdated_idem]
        · refine ⟨rc0, t0, hrc0, ?_⟩
          show lookupKey (updateRetryFailure st.remaining (fmtDate q.2) rc
            (env.now t)) k = _
          rw [lookupKey_updateRetryFailure_other _ _ _ _ _
            (fun he => hke he.symm)]
          exact hr

/-- A sweep without a success for `k` but containing a nonzero-exit event
for `k` leaves the record present and definitely updated in place. -/
theorem foldl_retryHandleOne_upgrade (env : Env) (t : Nat) (k : String)
    (r0 : FailureRecord) :
    ∀ (l : List (Pid × Date)) (st : RetryState),
      (∀ q ∈ l, fmtDate q.2 = k → env.poll q.1 t ≠ some 0) →
      (∃ r, lookupKey st.remaining k = some r ∧
        (r = r0 ∨ ∃ rc t', rc ≠ 0 ∧ r = retryUpdated r0 rc (env.now t'))) →
      (∃ pd ∈ l, fmtDate pd.2 = k ∧
        ∃ rc, env.poll pd.1 t = some rc ∧ rc ≠ 0) →
      ∃ rc t', rc ≠ 0 ∧
        lookupKey ((l.foldl (retryHandleOne env t) st).remaining) k
          = some (retryUpdated r0 rc (env.now t')) := by
  intro l
  induction l with
  | nil =>
    intro st _ _ hev
    obtain ⟨pd, hpd, _⟩ := hev
    exact absurd hpd (by simp)
  | cons q l ih =>
    intro st hl hP hev
    obtain ⟨pd, hpd, hfk, rc1, hprc, hrc1⟩ := hev
    rw [List.mem_cons] at hpd
    rcases hpd with hpd | hpd
    · -- the event is the head: after handling it the record is updated,
      -- and the rest of the sweep preserves the updated shape
      subst hpd
      rw [List.foldl_cons]
      have hupd : ∃ rc t', rc ≠ 0 ∧
          lookupKey ((retryHandleOne env t st pd).remaining) k
            = some (retryUpdated r0 rc (env.now t')) := by
        obtain ⟨r, hr, hshape⟩ := hP
        rw [retryHandleOne_failure env t st pd rc1 hprc hrc1]
        refine ⟨rc1, t, hrc1, ?_⟩
        show lookupKey (updateRetryFailure st.remaining (fmtDate pd.2) rc1
          (env.now t)) k = some (retryUpdated r0 rc1 (env.now t))
        rw [hfk]
        rw [lookupKey_updateRetryFailure_self _ _ _ _ hr]
        rcases hshape with h0 | ⟨rc', t', hrc', hsh⟩
        · rw [h0]
        · rw [hsh, retryUpdated_idem]
      exact foldl_retryHandleOne_keep_updated env t k r0 l _
        (fun q' hq' => hl q' (List.mem_cons_of_mem _ hq')) hupd
    · rw [List.foldl_cons]
      have hP' : ∃ r, lookupKey ((retryHandleOne env t st q).remaining) k
          = some r ∧
          (r = r0 ∨ ∃ rc t', rc ≠ 0 ∧ r = retryUpdated r0 rc (env.now t')) := by
        have := foldl_retryHandleOne_track env t k r0 [q] st
          (fun q' hq' => by
            rw [List.mem_singleton] at hq'
            subst hq'
            exact hl q' (List.mem_cons_self _ _)) hP
        simpa using this
      exact ih (retryHandleOne env t st q)
        (fun q' hq' => hl q' (List.mem_cons_of_mem _ hq')) hP'
        ⟨pd, hpd, hfk, rc1, hprc, hrc1⟩

/-! ## Step- and iterate-level transfer -/

theorem retryCheck_pending (env : Env) (t : Nat) (st : RetryState) :
    (retryCheck env t st).pending = st.pending := by
  show (st.active.foldl (retryHandleOne env t) st).pending = st.pending
  exact foldl_retryHandleOne_pending env t st.active st

theorem retryStep_active_mem (env : Env) (t : Nat) (st : RetryState) :
    ∀ q ∈ (retryStep env t st).active, q ∈ st.active ∨ q.2 ∈ st.pending := by
  intro q hq
  unfold retryStep retryLaunchLoop at hq
  rcases launchGo_mem env MAX_RETRY_PROCESSES _ _ _ q hq with h1 | h1
  · left
    have h2 := mem_foldl_erasePid _ _ _ h1
    rw [foldl_retryHandleOne_active] at h2
    exact h2
  · right
    rw [retryCheck_pending] at h1
    exact h1

theorem retryStep_pending_mem (env : Env) (t : Nat) (st : RetryState) :
    ∀ d ∈ (retryStep env t st).pending, d ∈ st.pending := by
  intro d hd
  unfold retryStep retryLaunchLoop at hd
  have := launchGo_pending_subset env MAX_RETRY_PROCESSES _ _ _ d hd
  rw [retryCheck_pending] at this
  exact this

/-- Any per-date property of the active and pending sets is an invariant of
the retry loop (workers are only launched for pending dates). -/
theorem retryIter_dateInv (env : Env) (P : Date → Prop) :
    ∀ (n t : Nat) (st : RetryState),
      (∀ q ∈ st.active, P q.2) → (∀ d ∈ st.pending, P d) →
      (∀ q ∈ (iterWith (retryStep env) t n st).active, P q.2) ∧
      (∀ d ∈ (iterWith (retryStep env) t n st).pending, P d) := by
  intro n
  induction n with
  | zero => intro t st ha hp; exact ⟨ha, hp⟩
  | succ n ih =>
    intro t st ha hp
    rw [iterWith_succ]
    refine ih (t + 1) (retryStep env t st) ?_ ?_
    · intro q hq
      rcases retryStep_active_mem env t st q hq with h | h
      · exact ha q h
      · exact hp _ h
    · intro d hd
      exact hp d (retryStep_pending_mem env t st d hd)

theorem retryStep_track (env : Env) (t : Nat) (k : String)
    (r0 : FailureRecord) (st : RetryState)
    (hl : ∀ q ∈ st.active, fmtDate q.2 = k → env.poll q.1 t ≠ some 0)
    (hP : ∃ r, lookupKey st.remaining k = some r ∧
      (r = r0 ∨ ∃ rc t', rc ≠ 0 ∧ r = retryUpdated r0 rc (env.now t'))) :
    ∃ r, lookupKey (retryStep env t st).remaining k = some r ∧
      (r = r0 ∨ ∃ rc t', rc ≠ 0 ∧ r = retryUpdated r0 rc (env.now t')) := by
  rw [retryStep_remaining]
  exact foldl_retryHandleOne_track env t k r0 st.active st hl hP

theorem retryStep_keep_updated (env : Env) (t : Nat) (k : String)
    (r0 : FailureRecord) (st : RetryState)
    (hl : ∀ q ∈ st.active, fmtDate q.2 = k → env.poll q.1 t ≠ some 0)
    (hQ : ∃ rc t', rc ≠ 0 ∧
      lookupKey st.remaining k = some (retryUpdated r0 rc (env.now t'))) :
    ∃ rc t', rc ≠ 0 ∧
      lookupKey (retryStep env t st).remaining k
        = some (retryUpdated r0 rc (env.now t')) := by
  rw [retryStep_remaining]
  exact foldl_retryHandleOne_keep_updated env t k r0 st.active st hl hQ

theorem retryStep_upgrade (env : Env) (t : Nat) (k : String)
    (r0 : FailureRecord) (st : RetryState)
    (hl : ∀ q ∈ st.active, fmtDate q.2 = k → env.poll q.1 t ≠ some 0)
    (hP : ∃ r, lookupKey st.remaining k = some r ∧
      (r = r0 ∨ ∃ rc t', rc ≠ 0 ∧ r = retryUpdated r0 rc (env.now t')))
    (hev : ∃ pd ∈ st.active, fmtDate pd.2 = k ∧
      ∃ rc, env.poll pd.1 t = some rc ∧ rc ≠ 0) :
    ∃ rc t', rc ≠ 0 ∧
      lookupKey (retryStep env t st).remaining k
        = some (retryUpdated r0 rc (env.now t')) := by
  rw [retryStep_remaining]
  exact foldl_retryHandleOne_upgrade env t k r0 st.active st hl hP hev

theorem retryIter_track (env : Env) (k : String) (r0 : FailureRecord) :
    ∀ (n t : Nat) (st : RetryState),
      (∀ i, i < n → ∀ q ∈ (iterWith (retryStep env) t i st).active,
        fmtDate q.2 = k → env.poll q.1 (t + i) ≠ some 0) →
      (∃ r, lookupKey st.remaining k = some r ∧
        (r = r0 ∨ ∃ rc t', rc ≠ 0 ∧ r = retryUpdated r0 rc (env.now t'))) →
      ∃ r, lookupKey (iterWith (retryStep env) t n st).remaining k = some r ∧
        (r = r0 ∨ ∃ rc t', rc ≠ 0 ∧ r = retryUpdated r0 rc (env.now t')) := by
  intro n
  induction n with
  | zero => intro t st _ hP; exact hP
  | succ n ih =>
    intro t st hns hP
    rw [iterWith_succ]
    refine ih (t + 1) (retryStep env t st) ?_ ?_
    · intro i hi q hq hfk
      have := hns (i + 1) (by omega) q (by rwa [iterWith_succ]) hfk
      rwa [show t + (i + 1) = t + 1 + i from by omega] at this
    · refine retryStep_track env t k r0 st ?_ hP
      intro q hq hfk
      simpa using hns 0 (by omega) q (by simpa [iterWith] using hq) hfk

theorem retryIter_keep_updated (env : Env) (k : String) (r0 : FailureRecord) :
    ∀ (n t : Nat) (st : RetryState),
      (∀ i, i < n → ∀ q ∈ (iterWith (retryStep env) t i st).active,
        fmtDate q.2 = k → env.poll q.1 (t + i) ≠ some 0) →
      (∃ rc t', rc ≠ 0 ∧
        lookupKey st.remaining k = some (retryUpdated r0 rc (env.now t'))) →
      ∃ rc t', rc ≠ 0 ∧
        lookupKey (iterWith (retryStep env) t n st).remaining k
          = some (retryUpdated r0 rc (env.now t')) := by
  intro n
  induction n with
  | zero => intro t st _ hQ; exact hQ
  | succ n ih =>
    intro t st hns hQ
    rw [iterWith_succ]
    refine ih (t + 1) (retryStep env t st) ?_ ?_
    · intro i hi q hq hfk
      have := hns (i + 1) (by omega) q (by rwa [iterWith_succ]) hfk
      rwa [show t + (i + 1) = t + 1 + i from by omega] at this
    · refine retryStep_keep_updated env t k r0 st ?_ hQ
      intro q hq hfk
      simpa using hns 0 (by omega) q (by simpa [iterWith] using hq) hfk

/-! ## `failed_dates` accumulation -/

theorem pollFailed_iff (env : Env) (t : Nat) (q : Pid × Date) :
    pollFailed env t q = true ↔
      ∃ rc, env.poll q.1 t = some rc ∧ rc ≠ 0 := by
  unfold pollFailed pollSucceeded
  cases hp : env.poll q.1 t with
  | none => simp
  | some rc =>
    by_cases hrc : rc = 0
    · subst hrc; simp
    · simp [hrc]

theorem retryIter_failed_nil (env : Env) :
    ∀ (n t : Nat) (st : RetryState), st.failed = [] →
      (∀ i, i < n → ∀ q ∈ (iterWith (retryStep env) t i st).active,
        pollFailed env (t + i) q = false) →
      (iterWith (retryStep env) t n st).failed = [] := by
  intro n
  induction n with
  | zero => intro t st h _; exact h
  | succ n ih =>
    intro t st h hns
    rw [iterWith_succ]
    refine ih (t + 1) (retryStep env t st) ?_ ?_
    · rw [retryStep_failed, h, List.nil_append]
      rw [List.map_eq_nil_iff, List.filter_eq_nil_iff]
      intro q hq
      have := hns 0 (by omega) q (by simpa [iterWith] using hq)
      simpa using this
    · intro i hi q hq
      have := hns (i + 1) (by omega) q (by rwa [iterWith_succ])
      rwa [show t + (i + 1) = t + 1 + i from by omega] at this

theorem retryStep_failed_length (env : Env) (t : Nat) (st : RetryState) :
    st.failed.length ≤ (retryStep env t st).failed.length := by
  rw [retryStep_failed]
  simp

theorem retryIter_failed_length (env : Env) :
    ∀ (n t : Nat) (st : RetryState),
      st.failed.length ≤ (iterWith (retryStep env) t n st).failed.length := by
  intro n
  induction n with
  | zero => intro t st; exact le_refl _
  | succ n ih =>
    intro t st
    rw [iterWith_succ]
    exact le_trans (retryStep_failed_length env t st) (ih (t + 1) _)

theorem retryStep_failed_event (env : Env) (t : Nat) (st : RetryState)
    (q : Pid × Date) (hq : q ∈ st.active) (hf : pollFailed env t q = true) :
    st.failed.length < (retryStep env t st).failed.length := by
  rw [retryStep_failed, List.length_append]
  have : q.2 ∈ (st.active.filter (pollFailed env t)).map Prod.snd :=
    List.mem_map_of_mem _ (List.mem_filter.mpr ⟨hq, hf⟩)
  have hne : (st.active.filter (pollFailed env t)).map Prod.snd ≠ [] := by
    intro he
    rw [he] at this
    exact absurd this (by simp)
  have : 0 < ((st.active.filter (pollFailed env t)).map Prod.snd).length :=
    List.length_pos.mpr hne
  omega

theorem lookupKey_isSome_of_mem (m : Ledger) (k : String)
    (h : k ∈ keysOf m) : ∃ v, lookupKey m k = some v := by
  induction m with
  | nil => simp [keysOf] at h
  | cons p rest ih =>
    obtain ⟨k', v'⟩ := p
    by_cases hk : k' = k
    · exact ⟨v', by rw [lookupKey_cons, if_pos hk]⟩
    · rw [keysOf_cons, List.mem_cons] at h
      rcases h with h | h
      · exact absurd h.symm hk
      · obtain ⟨v, hv⟩ := ih h
        exact ⟨v, by rw [lookupKey_cons, if_neg hk]; exact hv⟩

theorem retryStep_success_kills (env : Env) (t : Nat) (st : RetryState)
    (q : Pid × Date) (hnd : (keysOf st.remaining).Nodup) (hq : q ∈ st.active)
    (hp : env.poll q.1 t = some 0) :
    fmtDate q.2 ∉ keysOf (retryStep env t st).remaining := by
  rw [retryStep_remaining]
  exact foldl_retryHandleOne_success_kills env t st.active st q hnd hq hp

/-! ## Records under unparsable keys are never touched -/

theorem foldl_retryHandleOne_unparsable (env : Env) (t : Nat) (k : String)
    (hk : parseDateKey k = none) :
    ∀ (l : List (Pid × Date)) (st : RetryState),
      (∀ q ∈ l, q.2.valid = true) →
      lookupKey ((l.foldl (retryHandleOne env t) st).remaining) k
        = lookupKey st.remaining k := by
  intro l
  induction l with
  | nil => intro st _; rfl
  | cons q l ih =>
    intro st hval
    rw [List.foldl_cons,
      ih _ (fun q' hq' => hval q' (List.mem_cons_of_mem _ hq'))]
    have hne : fmtDate q.2 ≠ k :=
      fmtDate_ne_of_unparsable hk (hval q (List.mem_cons_self _ _))
    cases hp : env.poll q.1 t with
    | none => rw [retryHandleOne_none env t st q hp]
    | some rc =>
      by_cases hrc : rc = 0
      · subst hrc
        rw [retryHandleOne_success env t st q hp]
        show lookupKey (eraseKey st.remaining (fmtDate q.2)) k = _
        exact lookupKey_eraseKey_other _ _ _ (fun he => hne he.symm)
      · rw [retryHandleOne_failure env t st q rc hp hrc]
        show lookupKey (updateRetryFailure st.remaining (fmtDate q.2) rc
          (env.now t)) k = _
        exact lookupKey_updateRetryFailure_other _ _ _ _ _
          (fun he => hne he.symm)

theorem retryStep_unparsable (env : Env) (t : Nat) (k : String)
    (hk : parseDateKey k = none) (st : RetryState)
    (hval : ∀ q ∈ st.active, q.2.valid = true) :
    lookupKey (retryStep env t st).remaining k = lookupKey st.remaining k := by
  rw [retryStep_remaining]
  exact foldl_retryHandleOne_unparsable env t k hk st.active st hval

theorem retryIter_unparsable (env : Env) (k : String)
    (hk : parseDateKey k = none) :
    ∀ (n t : Nat) (st : RetryState),
      (∀ q ∈ st.active, q.2.valid = true) →
      (∀ d ∈ st.pending, d.valid = true) →
      lookupKey (iterWith (retryStep env) t n st).remaining k
        = lookupKey st.remaining k := by
  intro n
  induction n with
  | zero => intro t st _ _; rfl
  | succ n ih =>
    intro t st ha hp
    rw [iterWith_succ]
    have hstep := retryStep_unparsable env t k hk st ha
    rw [ih (t + 1) (retryStep env t st) ?_ ?_, hstep]
    · intro q hq
      rcases retryStep_active_mem env t st q hq with h | h
      · exact ha q h
      · exact hp _ h
    · intro d hd
      exact hp d (retryStep_pending_mem env t st d hd)

/-! ## Claim C2 -/

/-- What holds of the retry pass once it drains (the amended form of claim
C2): (A) a retried date observed to exit 0 at any instant has no record
under its canonical `YYYY-MM-DD` key in the terminal failure map; (B) a
retried date observed to exit nonzero, never observed to exit 0, whose
ledger key is canonical, keeps exactly one record — the original one with
only `error_message` and `last_attempt` rewritten in place by the retry
pass (so `variables_to_retry` and `date` are unchanged); (C) the terminal
failure file is written exactly once, with the remaining map — the empty
mapping when nothing remains. -/
def C2Conclusion (env : Env) (fuel : Nat) (m : Ledger)
    (final : RetryState) : Prop :=
  (∀ k pid d, (pid, d) ∈ (retryIterN env k (initRetryState m)).active →
    env.poll pid k = some 0 → fmtDate d ∉ keysOf final.remaining)
  ∧
  (∀ j pid d rc, (pid, d) ∈ (retryIterN env j (initRetryState m)).active →
    env.poll pid j = some rc → rc ≠ 0 →
    (∀ i q, q ∈ (retryIterN env i (initRetryState m)).active →
      fmtDate q.2 = fmtDate d → env.poll q.1 i ≠ some 0) →
    ∀ r0, lookupKey m (fmtDate d) = some r0 →
    ∃ rc' t', rc' ≠ 0 ∧
      lookupKey final.remaining (fmtDate d)
        = some (retryUpdated r0 rc' (env.now t')))
  ∧
  retryMain env fuel (.content m) = some ⟨some final.remaining,
    if final.failed.isEmpty then 0 else 1⟩

/-- Claim C2, amended.  The claim as frozen fails for a ledger key that
parses leniently but is not in canonical form (see `C2_counterexample`);
restricted to canonical keys, the retry-convergence behaviour holds. -/
theorem C2_amended_retry_convergence (env : Env) (fuel : Nat) (m : Ledger)
    (final : RetryState) (hm : m ≠ []) (hnd : (keysOf m).Nodup)
    (hrun : retryLoop env fuel (initRetryState m) = some final) :
    C2Conclusion env fuel m final := by
  obtain ⟨hfin, hdr⟩ := retryLoop_final env hrun
  refine ⟨?_, ?_, ?_⟩
  · -- (A) success removes the canonical key
    intro k pid d hmem hp
    by_cases hk : k < fuel
    · have hnd_k : (keysOf (retryIterN env k (initRetryState m)).remaining).Nodup :=
        retryIter_nodupKeys env k 0 _ hnd
      have hkill : fmtDate d ∉
          keysOf (retryStep env k (retryIterN env k (initRetryState m))).remaining :=
        retryStep_success_kills env k _ (pid, d) hnd_k hmem hp
      have hmono : fmtDate d ∉ keysOf (iterWith (retryStep env) (k + 1)
          (fuel - (k + 1)) (iterWith (retryStep env) 0 (k + 1)
            (initRetryState m))).remaining := by
        apply retryIter_keys_mono
        rw [iterWith_succ_right]
        simpa using hkill
      rw [← iterWith_split0, show k + 1 + (fuel - (k + 1)) = fuel from by
        omega] at hmono
      rwa [hfin]
    · have hpast := retryIter_past_final env hrun k (by omega)
      have hmem' : (pid, d) ∈ final.active := by
        rw [← hpast]
        exact hmem
      obtain ⟨_, ha⟩ := retryDrained_active final hdr
      rw [ha] at hmem'
      exact absurd hmem' (by simp)
  · -- (B) persistent failure updates the canonical record in place
    intro j pid d rc hmem hp hrc hnosucc r0 hr0
    by_cases hj : j < fuel
    · have hP0 : ∃ r, lookupKey (initRetryState m).remaining (fmtDate d)
          = some r ∧ (r = r0 ∨ ∃ rc' t', rc' ≠ 0 ∧
            r = retryUpdated r0 rc' (env.now t')) :=
        ⟨r0, hr0, Or.inl rfl⟩
      have hPj := retryIter_track env (fmtDate d) r0 j 0 (initRetryState m)
        (fun i _ q hq hfk => by simpa using hnosucc i q hq hfk) hP0
      have hQ : ∃ rc' t', rc' ≠ 0 ∧
          lookupKey (retryStep env j (retryIterN env j
            (initRetryState m))).remaining (fmtDate d)
            = some (retryUpdated r0 rc' (env.now t')) := by
        refine retryStep_upgrade env j (fmtDate d) r0 _ ?_ ?_ ?_
        · intro q hq hfk
          exact hnosucc j q hq hfk
        · exact hPj
        · exact ⟨(pid, d), hmem, rfl, rc, hp, hrc⟩
      have hkeep := retryIter_keep_updated env (fmtDate d) r0
        (fuel - (j + 1)) (j + 1)
        (iterWith (retryStep env) 0 (j + 1) (initRetryState m))
        (fun i _ q hq hfk => by
          rw [← iterWith_split0] at hq
          exact hnosucc (j + 1 + i) q hq hfk)
        (by rw [iterWith_succ_right]; simpa using hQ)
      rw [← iterWith_split0, show j + 1 + (fuel - (j + 1)) = fuel from by
        omega] at hkeep
      rwa [hfin]
    · have hpast := retryIter_past_final env hrun j (by omega)
      have hmem' : (pid, d) ∈ final.active := by
        rw [← hpast]
        exact hmem
      obtain ⟨_, ha⟩ := retryDrained_active final hdr
      rw [ha] at hmem'
      exact absurd hmem' (by simp)
  · -- (C) the single terminal write carries the remaining map
    have hne : m.isEmpty = false := by
      cases m with
      | nil => exact absurd rfl hm
      | cons a l => rfl
    simp only [retryMain, hne, Bool.false_eq_true, if_false, hrun]

/-- A concrete failure record under the non-canonical (but
`strptime`-accepted) key `"2020-1-5"`. -/
def recCexC2 : FailureRecord :=
  { date := "2020-1-5", variables_to_retry := allVarsList,
    error_message := "Subprocess failed with exit code 1",
    last_attempt := "2026-01-01T00:00:00" }

/-- Oracle for the C2 counterexample: the single launch gets pid 10 and the
worker is observed to exit 0 from tick 1 on. -/
def envCexC2 : Env :=
  { poll := fun _ t => if 1 ≤ t then some 0 else none,
    launch := fun k => some (k + 10),
    now := fun t => toString t }

/-- Claim C2 as frozen is false: the ledger key `"2020-1-5"` is accepted by
`strptime` (zero-padding is optional), so date 2020-01-05 is retried and
its worker exits 0 — yet the terminal failure file still contains its
record, because the success path deletes the canonical key `"2020-01-05"`,
which is absent.  The retry pass even exits 0 while the terminal file is
nonempty. -/
theorem C2_counterexample :
    parseDateKey "2020-1-5" = some ⟨2020, 1, 5⟩ ∧
    (initRetryState [("2020-1-5", recCexC2)]).pending = [⟨2020, 1, 5⟩] ∧
    (retryIterN envCexC2 1 (initRetryState [("2020-1-5", recCexC2)])).active
      = [(10, ⟨2020, 1, 5⟩)] ∧
    envCexC2.poll 10 1 = some 0 ∧
    retryMain envCexC2 4 (.content [("2020-1-5", recCexC2)])
      = some ⟨some [("2020-1-5", recCexC2)], 0⟩ := by
  decide

def recWitA : FailureRecord :=
  { date := "1988-04-01", variables_to_retry := allVarsList,
    error_message := "Subprocess failed with exit code 1",
    last_attempt := "t0" }

def recWitB : FailureRecord :=
  { date := "1988-04-02", variables_to_retry := allVarsList,
    error_message := "Subprocess failed with exit code 1",
    last_attempt := "t0" }

/-- Concrete ledger for the C2 witness: canonical keys, A succeeds on
retry, B fails again. -/
def mWitC2 : Ledger := [("1988-04-01", recWitA), ("1988-04-02", recWitB)]

def envWitC2 : Env :=
  { poll := fun pid t =>
      if 1 ≤ t then (if pid = 10 then some 0 else some 1) else none,
    launch := fun k => some (k + 10),
    now := fun t => toString t }

def finWitC2 : RetryState :=
  iterWith (retryStep envWitC2) 0 4 (initRetryState mWitC2)

theorem C2_amended_retry_convergence_witness :
    (mWitC2 ≠ [] ∧ (keysOf mWitC2).Nodup ∧
      retryLoop envWitC2 4 (initRetryState mWitC2) = some finWitC2) ∧
    C2Conclusion envWitC2 4 mWitC2 finWitC2 :=
  ⟨⟨by decide, by decide, by decide⟩,
    C2_amended_retry_convergence envWitC2 4 mWitC2 finWitC2
      (by decide) (by decide) (by decide)⟩

/-! ## Pid deletion versus filtering

`active_processes` is a dict, so its pids are unique; under that invariant
the `del` loop over `completed_pids` is the same as filtering out every
entry whose poll was observed `some`. -/

theorem erasePid_eq_filter (a : List (Pid × Date)) (p : Pid)
    (hnd : (a.map Prod.fst).Nodup) :
    erasePid a p = a.filter (fun q => !(q.1 == p)) := by
  induction a with
  | nil => rfl
  | cons q0 rest ih =>
    obtain ⟨p', d'⟩ := q0
    rw [List.map_cons, List.nodup_cons] at hnd
    by_cases h : p' = p
    · subst h
      rw [show erasePid ((p', d') :: rest) p' = rest from if_pos rfl]
      rw [List.filter_cons_of_neg (by simp)]
      symm
      rw [List.filter_eq_self]
      intro q hq
      simp only [Bool.not_eq_true', beq_eq_false_iff_ne, ne_eq]
      intro he
      refine hnd.1 ?_
      rw [← he]
      exact List.mem_map.mpr ⟨q, hq, rfl⟩
    · rw [show erasePid ((p', d') :: rest) p = (p', d') :: erasePid rest p
        from if_neg h]
      rw [List.filter_cons_of_pos (by simp [h]), ih hnd.2]

theorem nodup_fst_filter (a : List (Pid × Date)) (f : Pid × Date → Bool)
    (hnd : (a.map Prod.fst).Nodup) :
    ((a.filter f).map Prod.fst).Nodup := by
  induction a with
  | nil => simp
  | cons q rest ih =>
    rw [List.map_cons, List.nodup_cons] at hnd
    by_cases h : f q
    · rw [List.filter_cons_of_pos h, List.map_cons, List.nodup_cons]
      refine ⟨fun hmem => ?_, ih hnd.2⟩
      obtain ⟨q', hq', he⟩ := List.mem_map.mp hmem
      exact hnd.1 (he ▸ List.mem_map_of_mem Prod.fst (List.mem_of_mem_filter hq'))
    · rw [List.filter_cons_of_neg h]
      exact ih hnd.2

theorem foldl_erasePid_eq_filter (ps : List Pid) :
    ∀ (a : List (Pid × Date)), (a.map Prod.fst).Nodup →
      ps.foldl erasePid a = a.filter (fun q => !(ps.contains q.1)) := by
  induction ps with
  | nil =>
    intro a _
    rw [List.foldl_nil]
    symm
    rw [List.filter_eq_self]
    intro q _
    simp
  | cons p ps ih =>
    intro a hnd
    rw [List.foldl_cons, erasePid_eq_filter a p hnd,
      ih _ (nodup_fst_filter a _ hnd), List.filter_filter]
    apply List.filter_congr
    intro q _
    simp only [List.contains_cons]
    cases hq : q.1 == p <;> simp [hq]

theorem mem_donePidsOf (env : Env) (t : Nat) (act : List (Pid × Date))
    (p : Pid) :
    p ∈ donePidsOf env t act ↔
      ∃ pd ∈ act, pd.1 = p ∧ (env.poll pd.1 t).isSome = true := by
  unfold donePidsOf
  rw [List.mem_filterMap]
  constructor
  · rintro ⟨pd, hpd, hf⟩
    by_cases hs : (env.poll pd.1 t).isSome
    · rw [if_pos hs] at hf
      exact ⟨pd, hpd, Option.some_inj.mp hf, hs⟩
    · rw [if_neg hs] at hf
      exact Option.noConfusion hf
  · rintro ⟨pd, hpd, hp, hs⟩
    exact ⟨pd, hpd, by rw [if_pos hs, hp]⟩

/-- In a table with unique pids, two entries sharing a pid coincide. -/
theorem eq_of_fst_eq_of_nodup :
    ∀ {a : List (Pid × Date)}, (a.map Prod.fst).Nodup →
      ∀ {q1 q2 : Pid × Date}, q1 ∈ a → q2 ∈ a → q1.1 = q2.1 → q1 = q2 := by
  intro a
  induction a with
  | nil => intro _ q1 q2 h1; exact absurd h1 (by simp)
  | cons q0 rest ih =>
    intro hnd q1 q2 h1 h2 he
    rw [List.map_cons, List.nodup_cons] at hnd
    rw [List.mem_cons] at h1 h2
    rcases h1 with h1 | h1 <;> rcases h2 with h2 | h2
    · rw [h1, h2]
    · exfalso
      refine hnd.1 ?_
      rw [← h1, he]
      exact List.mem_map.mpr ⟨q2, h2, rfl⟩
    · exfalso
      refine hnd.1 ?_
      rw [← h2, ← he]
      exact List.mem_map.mpr ⟨q1, h1, rfl⟩
    · exact ih hnd.2 h1 h2 he

/-- With unique pids, the deletion loop leaves exactly the entries still
observed running. -/
theorem foldl_erasePid_donePids (env : Env) (t : Nat)
    (act : List (Pid × Date)) (hnd : (act.map Prod.fst).Nodup) :
    (donePidsOf env t act).foldl erasePid act
      = act.filter (fun q => (env.poll q.1 t).isNone) := by
  rw [foldl_erasePid_eq_filter _ act hnd]
  apply List.filter_congr
  intro q hq
  cases hs : env.poll q.1 t with
  | none =>
    simp only [Option.isNone_none]
    rw [Bool.not_eq_true', List.contains_eq_any_beq, Bool.eq_false_iff]
    intro hany
    rw [List.any_eq_true] at hany
    obtain ⟨p, hp, hbeq⟩ := hany
    rw [beq_iff_eq] at hbeq
    obtain ⟨pd, hpd, hfst, hsome⟩ := (mem_donePidsOf env t act p).mp hp
    have hfq : pd.1 = q.1 := by rw [hfst]; exact hbeq.symm
    have hpq : pd = q := eq_of_fst_eq_of_nodup hnd hpd hq hfq
    rw [hpq, hs] at hsome
    exact Bool.noConfusion hsome
  | some rc =>
    simp only [Option.isNone_some]
    rw [Bool.not_eq_false', List.contains_eq_any_beq]
    rw [List.any_eq_true]
    exact ⟨q.1, (mem_donePidsOf env t act q.1).mpr ⟨q, hq, rfl, by rw [hs]; rfl⟩,
      by rw [beq_iff_eq]⟩

/-! ## Driver sweep characterization (claim C3) -/

theorem pipelineHandleOne_none (env : Env) (t : Nat) (st : DriverState)
    (pd : Pid × Date) (hp : env.poll pd.1 t = none) :
    pipelineHandleOne env t st pd = st := by
  unfold pipelineHandleOne; rw [hp]

theorem pipelineHandleOne_success (env : Env) (t : Nat) (st : DriverState)
    (pd : Pid × Date) (hp : env.poll pd.1 t = some 0) :
    pipelineHandleOne env t st pd =
      { st with completed := st.completed ++ [pd.2] } := by
  unfold pipelineHandleOne; rw [hp]; simp

theorem pipelineHandleOne_failure (env : Env) (t : Nat) (st : DriverState)
    (pd : Pid × Date) (rc : Int) (hp : env.poll pd.1 t = some rc)
    (hrc : rc ≠ 0) :
    pipelineHandleOne env t st pd =
      { st with failed := st.failed ++ [pd.2],
                dataLedger := log_failure st.dataLedger pd.2 rc (env.now t) } := by
  unfold pipelineHandleOne; rw [hp]; simp [hrc]

theorem srcHandleOne_none (env : Env) (t : Nat) (st : DriverState)
    (pd : Pid × Date) (hp : env.poll pd.1 t = none) :
    srcHandleOne env t st pd = st := by
  unfold srcHandleOne; rw [hp]

theorem srcHandleOne_success (env : Env) (t : Nat) (st : DriverState)
    (pd : Pid × Date) (hp : env.poll pd.1 t = some 0) :
    srcHandleOne env t st pd =
      { st with completed := st.completed ++ [pd.2] } := by
  unfold srcHandleOne; rw [hp]; simp

theorem srcHandleOne_failure (env : Env) (t : Nat) (st : DriverState)
    (pd : Pid × Date) (rc : Int) (hp : env.poll pd.1 t = some rc)
    (hrc : rc ≠ 0) :
    srcHandleOne env t st pd =
      { st with failed := st.failed ++ [pd.2],
                jobsDir := srcLogFailure st.jobsDir pd.2 rc (env.now t) } := by
  unfold srcHandleOne; rw [hp]; simp [hrc]

theorem foldl_pipelineHandleOne_active (env : Env) (t : Nat) :
    ∀ (l : List (Pid × Date)) (st : DriverState),
      (l.foldl (pipelineHandleOne env t) st).active = st.active := by
  intro l
  induction l with
  | nil => intro st; rfl
  | cons pd l ih =>
    intro st
    rw [List.foldl_cons, ih]
    cases hp : env.poll pd.1 t with
    | none => rw [pipelineHandleOne_none env t st pd hp]
    | some rc =>
      by_cases hrc : rc = 0
      · subst hrc; rw [pipelineHandleOne_success env t st pd hp]
      · rw [pipelineHandleOne_failure env t st pd rc hp hrc]

theorem foldl_srcHandleOne_active (env : Env) (t : Nat) :
    ∀ (l : List (Pid × Date)) (st : DriverState),
      (l.foldl (srcHandleOne env t) st).active = st.active := by
  intro l
  induction l with
  | nil => intro st; rfl
  | cons pd l ih =>
    intro st
    rw [List.foldl_cons, ih]
    cases hp : env.poll pd.1 t with
    | none => rw [srcHandleOne_none env t st pd hp]
    | some rc =>
      by_cases hrc : rc = 0
      · subst hrc; rw [srcHandleOne_success env t st pd hp]
      · rw [srcHandleOne_failure env t st pd rc hp hrc]

theorem foldl_pipelineHandleOne_completed (env : Env) (t : Nat) :
    ∀ (l : List (Pid × Date)) (st : DriverState),
      (l.foldl (pipelineHandleOne env t) st).completed
        = st.completed ++ (l.filter (pollSucceeded env t)).map Prod.snd := by
  intro l
  induction l with
  | nil => intro st; simp
  | cons pd l ih =>
    intro st
    rw [List.foldl_cons, ih]
    cases hp : env.poll pd.1 t with
    | none =>
      rw [pipelineHandleOne_none env t st pd hp,
        List.filter_cons_of_neg (by simp [pollSucceeded, hp])]
    | some rc =>
      by_cases hrc : rc = 0
      · subst hrc
        rw [pipelineHandleOne_success env t st pd hp,
          List.filter_cons_of_pos (by simp [pollSucceeded, hp])]
        simp
      · rw [pipelineHandleOne_failure env t st pd rc hp hrc,
          List.filter_cons_of_neg (by simp [pollSucceeded, hp, hrc])]

theorem foldl_pipelineHandleOne_failed (env : Env) (t : Nat) :
    ∀ (l : List (Pid × Date)) (st : DriverState),
      (l.foldl (pipelineHandleOne env t) st).failed
        = st.failed ++ (l.filter (pollFailed env t)).map Prod.snd := by
  intro l
  induction l with
  | nil => intro st; simp
  | cons pd l ih =>
    intro st
    rw [List.foldl_cons, ih]
    cases hp : env.poll pd.1 t with
    | none =>
      rw [pipelineHandleOne_none env t st pd hp,
        List.filter_cons_of_neg (by simp [pollFailed, hp])]
    | some rc =>
      by_cases hrc : rc = 0
      · subst hrc
        rw [pipelineHandleOne_success env t st pd hp,
          List.filter_cons_of_neg (by simp [pollFailed, pollSucceeded, hp])]
      · rw [pipelineHandleOne_failure env t st pd rc hp hrc,
          List.filter_cons_of_pos (by simp [pollFailed, pollSucceeded, hp, hrc])]
        simp

theorem foldl_srcHandleOne_completed (env : Env) (t : Nat) :
    ∀ (l : List (Pid × Date)) (st : DriverState),
      (l.foldl (srcHandleOne env t) st).completed
        = st.completed ++ (l.filter (pollSucceeded env t)).map Prod.snd := by
  intro l
  induction l with
  | nil => intro st; simp
  | cons pd l ih =>
    intro st
    rw [List.foldl_cons, ih]
    cases hp : env.poll pd.1 t with
    | none =>
      rw [srcHandleOne_none env t st pd hp,
        List.filter_cons_of_neg (by simp [pollSucceeded, hp])]
    | some rc =>
      by_cases hrc : rc = 0
      · subst hrc
        rw [srcHandleOne_success env t st pd hp,
          List.filter_cons_of_pos (by simp [pollSucceeded, hp])]
        simp
      · rw [srcHandleOne_failure env t st pd rc hp hrc,
          List.filter_cons_of_neg (by simp [pollSucceeded, hp, hrc])]

theorem foldl_srcHandleOne_failed (env : Env) (t : Nat) :
    ∀ (l : List (Pid × Date)) (st : DriverState),
      (l.foldl (srcHandleOne env t) st).failed
        = st.failed ++ (l.filter (pollFailed env t)).map Prod.snd := by
  intro l
  induction l with
  | nil => intro st; simp
  | cons pd l ih =>
    intro st
    rw [List.foldl_cons, ih]
    cases hp : env.poll pd.1 t with
    | none =>
      rw [srcHandleOne_none env t st pd hp,
        List.filter_cons_of_neg (by simp [pollFailed, hp])]
    | some rc =>
      by_cases hrc : rc = 0
      · subst hrc
        rw [srcHandleOne_success env t st pd hp,
          List.filter_cons_of_neg (by simp [pollFailed, pollSucceeded, hp])]
      · rw [srcHandleOne_failure env t st pd rc hp hrc,
          List.filter_cons_of_pos (by simp [pollFailed, pollSucceeded, hp, hrc])]
        simp

/-- Ledger lookups through `loadForLog ∘ log_failure` compose to `setKey`
on the underlying map. -/
theorem loadForLog_log_failure (file : LedgerFile) (d : Date) (rc : Int)
    (now : String) :
    loadForLog (log_failure file d rc now)
      = setKey (loadForLog file) (fmtDate d) (mkFailureRecord d rc now) := rfl

/-- During a sweep, a write for a key not written again later survives to
the end of the sweep (pipeline ledger). -/
theorem foldl_pipelineHandleOne_ledger_frame (env : Env) (t : Nat)
    (k : String) :
    ∀ (l : List (Pid × Date)) (st : DriverState),
      (∀ q ∈ l, fmtDate q.2 ≠ k) →
      lookupKey (loadForLog (l.foldl (pipelineHandleOne env t) st).dataLedger) k
        = lookupKey (loadForLog st.dataLedger) k := by
  intro l
  induction l with
  | nil => intro st _; rfl
  | cons q l ih =>
    intro st hl
    rw [List.foldl_cons, ih _ (fun q' hq' => hl q' (List.mem_cons_of_mem _ hq'))]
    have hne := hl q (List.mem_cons_self _ _)
    cases hp : env.poll q.1 t with
    | none => rw [pipelineHandleOne_none env t st q hp]
    | some rc =>
      by_cases hrc : rc = 0
      · subst hrc; rw [pipelineHandleOne_success env t st q hp]
      · rw [pipelineHandleOne_failure env t st q rc hp hrc]
        show lookupKey (loadForLog (log_failure st.dataLedger q.2 rc
          (env.now t))) k = _
        rw [loadForLog_log_failure]
        exact lookupKey_setKey_other _ _ _ _ (fun he => hne he.symm)

/-- A failing entry of the sweep gets its `FailureRecord` written, and the
record survives to the end of the sweep provided no later entry of the
sweep carries the same canonical date key. -/
theorem foldl_pipelineHandleOne_ledger_write (env : Env) (t : Nat) :
    ∀ (l : List (Pid × Date)) (st : DriverState) (pd : Pid × Date) (rc : Int),
      ((l.map (fun q => fmtDate q.2)).Nodup) →
      pd ∈ l → env.poll pd.1 t = some rc → rc ≠ 0 →
      lookupKey (loadForLog (l.foldl (pipelineHandleOne env t) st).dataLedger)
          (fmtDate pd.2)
        = some (mkFailureRecord pd.2 rc (env.now t)) := by
  intro l
  induction l with
  | nil => intro st pd rc _ hpd; exact absurd hpd (by simp)
  | cons q l ih =>
    intro st pd rc hnd hpd hp hrc
    rw [List.map_cons, List.nodup_cons] at hnd
    rw [List.mem_cons] at hpd
    rcases hpd with hpd | hpd
    · subst hpd
      rw [List.foldl_cons]
      rw [foldl_pipelineHandleOne_ledger_frame env t _ l _
        (fun q' hq' he => hnd.1 (by rw [← he]; exact List.mem_map.mpr ⟨q', hq', rfl⟩))]
      rw [pipelineHandleOne_failure env t st pd rc hp hrc]
      show lookupKey (loadForLog (log_failure st.dataLedger pd.2 rc
        (env.now t))) (fmtDate pd.2) = _
      rw [loadForLog_log_failure]
      exact lookupKey_setKey_self _ _ _
    · rw [List.foldl_cons]
      exact ih _ pd rc hnd.2 hpd hp hrc

/-- Same statement for the `src/src` per-date failure files. -/
theorem foldl_srcHandleOne_dir_frame (env : Env) (t : Nat) (k : String) :
    ∀ (l : List (Pid × Date)) (st : DriverState),
      (∀ q ∈ l, fmtDate q.2 ≠ k) →
      lookupKey (l.foldl (srcHandleOne env t) st).jobsDir k
        = lookupKey st.jobsDir k := by
  intro l
  induction l with
  | nil => intro st _; rfl
  | cons q l ih =>
    intro st hl
    rw [List.foldl_cons, ih _ (fun q' hq' => hl q' (List.mem_cons_of_mem _ hq'))]
    have hne := hl q (List.mem_cons_self _ _)
    cases hp : env.poll q.1 t with
    | none => rw [srcHandleOne_none env t st q hp]
    | some rc =>
      by_cases hrc : rc = 0
      · subst hrc; rw [srcHandleOne_success env t st q hp]
      · rw [srcHandleOne_failure env t st q rc hp hrc]
        show lookupKey (srcLogFailure st.jobsDir q.2 rc (env.now t)) k = _
        exact lookupKey_setKey_other _ _ _ _ (fun he => hne he.symm)

theorem foldl_srcHandleOne_dir_write (env : Env) (t : Nat) :
    ∀ (l : List (Pid × Date)) (st : DriverState) (pd : Pid × Date) (rc : Int),
      ((l.map (fun q => fmtDate q.2)).Nodup) →
      pd ∈ l → env.poll pd.1 t = some rc → rc ≠ 0 →
      lookupKey (l.foldl (srcHandleOne env t) st).jobsDir (fmtDate pd.2)
        = some (mkFailureRecord pd.2 rc (env.now t)) := by
  intro l
  induction l with
  | nil => intro st pd rc _ hpd; exact absurd hpd (by simp)
  | cons q l ih =>
    intro st pd rc hnd hpd hp hrc
    rw [List.map_cons, List.nodup_cons] at hnd
    rw [List.mem_cons] at hpd
    rcases hpd with hpd | hpd
    · subst hpd
      rw [List.foldl_cons]
      rw [foldl_srcHandleOne_dir_frame env t _ l _
        (fun q' hq' he => hnd.1 (by rw [← he]; exact List.mem_map.mpr ⟨q', hq', rfl⟩))]
      rw [srcHandleOne_failure env t st pd rc hp hrc]
      show lookupKey (srcLogFailure st.jobsDir pd.2 rc (env.now t))
        (fmtDate pd.2) = _
      exact lookupKey_setKey_self _ _ _
    · rw [List.foldl_cons]
      exact ih _ pd rc hnd.2 hpd hp hrc

theorem pipelineCheck_active (env : Env) (t : Nat) (st : DriverState)
    (hnd : (st.active.map Prod.fst).Nodup) :
    (pipelineCheck env t st).active
      = st.active.filter (fun q => (env.poll q.1 t).isNone) := by
  show (donePidsOf env t st.active).foldl erasePid
    ((st.active.foldl (pipelineHandleOne env t) st).active) = _
  rw [foldl_pipelineHandleOne_active]
  exact foldl_erasePid_donePids env t st.active hnd

theorem srcCheck_active (env : Env) (t : Nat) (st : DriverState)
    (hnd : (st.active.map Prod.fst).Nodup) :
    (srcCheck env t st).active
      = st.active.filter (fun q => (env.poll q.1 t).isNone) := by
  show (donePidsOf env t st.active).foldl erasePid
    ((st.active.foldl (srcHandleOne env t) st).active) = _
  rw [foldl_srcHandleOne_active]
  exact foldl_erasePid_donePids env t st.active hnd

/-! ## Claim C3 -/

/-- Claim C3: one `check_completed_processes` sweep (in both driver
variants) removes every handle observed terminated from the active table,
appends each date with exit 0 to `completed_dates` and each date with
nonzero exit to `failed_dates` — exactly one outcome per terminated
handle, in snapshot order — and, for every nonzero exit, records a
`FailureRecord` whose `variables_to_retry` is the full configured
variable set and whose `error_message` names the exit code. -/
def C3Conclusion (env : Env) (t : Nat) (st : DriverState) : Prop :=
  ((pipelineCheck env t st).active
    = st.active.filter (fun q => (env.poll q.1 t).isNone)) ∧
  ((pipelineCheck env t st).completed
    = st.completed ++ (st.active.filter (pollSucceeded env t)).map Prod.snd) ∧
  ((pipelineCheck env t st).failed
    = st.failed ++ (st.active.filter (pollFailed env t)).map Prod.snd) ∧
  (∀ pd ∈ st.active, ∀ rc : Int, env.poll pd.1 t = some rc → rc ≠ 0 →
    lookupKey (loadForLog (pipelineCheck env t st).dataLedger) (fmtDate pd.2)
      = some (mkFailureRecord pd.2 rc (env.now t))) ∧
  ((srcCheck env t st).active
    = st.active.filter (fun q => (env.poll q.1 t).isNone)) ∧
  ((srcCheck env t st).completed
    = st.completed ++ (st.active.filter (pollSucceeded env t)).map Prod.snd) ∧
  ((srcCheck env t st).failed
    = st.failed ++ (st.active.filter (pollFailed env t)).map Prod.snd) ∧
  (∀ pd ∈ st.active, ∀ rc : Int, env.poll pd.1 t = some rc → rc ≠ 0 →
    lookupKey (srcCheck env t st).jobsDir (fmtDate pd.2)
      = some (mkFailureRecord pd.2 rc (env.now t))) ∧
  (∀ d rc now, (mkFailureRecord d rc now).variables_to_retry = allVarsList ∧
    (mkFailureRecord d rc now).error_message
      = s!"Subprocess failed with exit code {rc}" ∧
    (mkFailureRecord d rc now).last_attempt = now)

/-- Claim C3: in one completion sweep (both driver variants), a worker
polling `None` stays active; exit code 0 appends its date to
`completed_dates`; any nonzero exit code appends it to `failed_dates` and
writes a `FailureRecord` carrying all nine variables, the formatted error
message and the timestamp under the date's canonical key. -/
theorem C3_outcome_classification (env : Env) (t : Nat) (st : DriverState)
    (hpid : (st.active.map Prod.fst).Nodup)
    (hkeys : (st.active.map (fun q => fmtDate q.2)).Nodup) :
    C3Conclusion env t st := by
  refine ⟨pipelineCheck_active env t st hpid, ?_, ?_, ?_,
    srcCheck_active env t st hpid, ?_, ?_, ?_, ?_⟩
  · show (st.active.foldl (pipelineHandleOne env t) st).completed = _
    exact foldl_pipelineHandleOne_completed env t st.active st
  · show (st.active.foldl (pipelineHandleOne env t) st).failed = _
    exact foldl_pipelineHandleOne_failed env t st.active st
  · intro pd hpd rc hp hrc
    show lookupKey (loadForLog
      (st.active.foldl (pipelineHandleOne env t) st).dataLedger)
      (fmtDate pd.2) = _
    exact foldl_pipelineHandleOne_ledger_write env t st.active st pd rc
      hkeys hpd hp hrc
  · show (st.active.foldl (srcHandleOne env t) st).completed = _
    exact foldl_srcHandleOne_completed env t st.active st
  · show (st.active.foldl (srcHandleOne env t) st).failed = _
    exact foldl_srcHandleOne_failed env t st.active st
  · intro pd hpd rc hp hrc
    show lookupKey (st.active.foldl (srcHandleOne env t) st).jobsDir
      (fmtDate pd.2) = _
    exact foldl_srcHandleOne_dir_write env t st.active st pd rc
      hkeys hpd hp hrc
  · intro d rc now
    exact ⟨rfl, rfl, rfl⟩

def envWitC3 : Env :=
  { poll := fun pid _ =>
      if pid = 1 then some 0 else if pid = 2 then some 1 else none,
    launch := fun _ => none,
    now := fun t => toString t }

def stWitC3 : DriverState :=
  { pending := [], launchCtr := 3,
    active := [(1, ⟨1988, 3, 31⟩), (2, ⟨1988, 4, 1⟩), (3, ⟨1988, 4, 2⟩)],
    completed := [], failed := [], dataLedger := clearLedger, jobsDir := [] }

theorem C3_outcome_classification_witness :
    ((stWitC3.active.map Prod.fst).Nodup ∧
      (stWitC3.active.map (fun q => fmtDate q.2)).Nodup) ∧
    C3Conclusion envWitC3 5 stWitC3 :=
  ⟨⟨by decide, by decide⟩,
    C3_outcome_classification envWitC3 5 stWitC3 (by decide) (by decide)⟩

/-! ## Claim C1 -/

theorem retryStep_active_le (env : Env) (t : Nat) (st : RetryState)
    (h : st.active.length ≤ MAX_RETRY_PROCESSES) :
    (retryStep env t st).active.length ≤ MAX_RETRY_PROCESSES := by
  show ((launchGo env MAX_RETRY_PROCESSES (retryCheck env t st).pending
    (retryCheck env t st).launchCtr (retryCheck env t st).active).2.2).length
    ≤ MAX_RETRY_PROCESSES
  apply launchGo_length
  show ((donePidsOf env t st.active).foldl erasePid
    ((st.active.foldl (retryHandleOne env t) st).active)).length
    ≤ MAX_RETRY_PROCESSES
  rw [foldl_retryHandleOne_active]
  exact le_trans (foldl_erasePid_length _ _) h

theorem pipelineStep_active_le (env : Env) (maxP t : Nat) (st : DriverState)
    (h : st.active.length ≤ maxP) :
    (pipelineStep env maxP t st).active.length ≤ maxP := by
  show ((launchGo env maxP (pipelineCheck env t st).pending
    (pipelineCheck env t st).launchCtr (pipelineCheck env t st).active).2.2).length
    ≤ maxP
  apply launchGo_length
  show ((donePidsOf env t st.active).foldl erasePid
    ((st.active.foldl (pipelineHandleOne env t) st).active)).length ≤ maxP
  rw [foldl_pipelineHandleOne_active]
  exact le_trans (foldl_erasePid_length _ _) h

theorem srcStep_active_le (env : Env) (maxP t : Nat) (st : DriverState)
    (h : st.active.length ≤ maxP) :
    (srcStep env maxP t st).active.length ≤ maxP := by
  show ((launchGo env maxP (srcCheck env t st).pending
    (srcCheck env t st).launchCtr (srcCheck env t st).active).2.2).length
    ≤ maxP
  apply launchGo_length
  show ((donePidsOf env t st.active).foldl erasePid
    ((st.active.foldl (srcHandleOne env t) st).active)).length ≤ maxP
  rw [foldl_srcHandleOne_active]
  exact le_trans (foldl_erasePid_length _ _) h

theorem retryIter_active_le (env : Env) :
    ∀ (n t : Nat) (st : RetryState),
      st.active.length ≤ MAX_RETRY_PROCESSES →
      (iterWith (retryStep env) t n st).active.length
        ≤ MAX_RETRY_PROCESSES := by
  intro n
  induction n with
  | zero => intro t st h; exact h
  | succ n ih =>
    intro t st h
    rw [iterWith_succ]
    exact ih (t + 1) _ (retryStep_active_le env t st h)

theorem pipelineIter_active_le (env : Env) (maxP : Nat) :
    ∀ (n t : Nat) (st : DriverState), st.active.length ≤ maxP →
      (iterWith (pipelineStep env maxP) t n st).active.length ≤ maxP := by
  intro n
  induction n with
  | zero => intro t st h; exact h
  | succ n ih =>
    intro t st h
    rw [iterWith_succ]
    exact ih (t + 1) _ (pipelineStep_active_le env maxP t st h)

theorem srcIter_active_le (env : Env) (maxP : Nat) :
    ∀ (n t : Nat) (st : DriverState), st.active.length ≤ maxP →
      (iterWith (srcStep env maxP) t n st).active.length ≤ maxP := by
  intro n
  induction n with
  | zero => intro t st h; exact h
  | succ n ih =>
    intro t st h
    rw [iterWith_succ]
    exact ih (t + 1) _ (srcStep_active_le env maxP t st h)

/-- Claim C1: in both driver variants and in the retry pass, the active
table never exceeds the pass's concurrency bound at any polling instant,
and the launch loop starts nothing once the table has reached the bound
(terminated workers having been deleted before the launch phase of each
iteration, by the structure of the step functions). -/
def C1Conclusion (env : Env) (maxP : Nat) (dates : List Date) (m : Ledger)
    (initLedger : LedgerFile) (initJobsDir : Ledger) : Prop :=
  (∀ k, (iterWith (pipelineStep env maxP) 0 k
    (pipelineInitState dates)).active.length ≤ maxP) ∧
  (∀ k, (iterWith (srcStep env maxP) 0 k
    (srcInitState dates initLedger initJobsDir)).active.length ≤ maxP) ∧
  (∀ k, (retryIterN env k (initRetryState m)).active.length
    ≤ MAX_RETRY_PROCESSES) ∧
  (∀ st : DriverState, maxP ≤ st.active.length →
    (driverLaunchLoop env maxP st).active = st.active) ∧
  (∀ st : RetryState, MAX_RETRY_PROCESSES ≤ st.active.length →
    (retryLaunchLoop env st).active = st.active)

/-- Claim C1: at every instant, each driver pass runs at most
`max_processes` concurrent workers (`MAX_CONCURRENT_PROCESSES = 8` for the
main pass, `MAX_RETRY_PROCESSES = 2` for the retry pass), and a launch
phase entered at the bound starts nothing. -/
theorem C1_concurrency_bound (env : Env) (maxP : Nat) (dates : List Date)
    (m : Ledger) (initLedger : LedgerFile) (initJobsDir : Ledger)
    (hN : 1 ≤ maxP) :
    C1Conclusion env maxP dates m initLedger initJobsDir := by
  refine ⟨?_, ?_, ?_, ?_, ?_⟩
  · intro k
    exact pipelineIter_active_le env maxP k 0 _ (by simp [pipelineInitState])
  · intro k
    exact srcIter_active_le env maxP k 0 _ (by simp [srcInitState])
  · intro k
    exact retryIter_active_le env k 0 _ (by simp [initRetryState])
  · intro st hst
    show (launchGo env maxP st.pending st.launchCtr st.active).2.2 = st.active
    rw [launchGo_at_bound env maxP _ _ _ (by omega)]
  · intro st hst
    show (launchGo env MAX_RETRY_PROCESSES st.pending st.launchCtr
      st.active).2.2 = st.active
    rw [launchGo_at_bound env MAX_RETRY_PROCESSES _ _ _ (by omega)]

theorem C1_concurrency_bound_witness :
    1 ≤ 1 ∧ C1Conclusion envWitC2 1 [⟨1988, 3, 31⟩, ⟨1988, 4, 1⟩]
      mWitC2 clearLedger [] :=
  ⟨by decide, C1_concurrency_bound envWitC2 1 [⟨1988, 3, 31⟩, ⟨1988, 4, 1⟩]
    mWitC2 clearLedger [] (by decide)⟩

/-! ## Claim C10 -/

/-- Claim C10: ledger keys that `strptime` rejects contribute no worker
(every launched worker's date comes from a parseable key), their records
are copied unchanged into the terminal failure file, and — when every
observed exit code is 0 — the retry step still exits 0 despite the
unparsable records remaining. -/
def C10Conclusion (env : Env) (fuel : Nat) (m : Ledger)
    (final : RetryState) : Prop :=
  (∀ key, key ∈ keysOf m → parseDateKey key = none →
    lookupKey final.remaining key = lookupKey m key) ∧
  (∀ k q, q ∈ (retryIterN env k (initRetryState m)).active →
    ∃ key ∈ keysOf m, parseDateKey key = some q.2) ∧
  ((∀ i q, q ∈ (retryIterN env i (initRetryState m)).active →
      ∀ rc : Int, env.poll q.1 i = some rc → rc = 0) →
    retryMain env fuel (.content m) = some ⟨some final.remaining, 0⟩)

/-- Claim C10: a ledger key that `strptime` cannot parse is skipped with a
warning — no worker is ever launched for it, its record survives in
`remaining_failures` untouched, and when every launched retry succeeds it
still reaches the terminal `ultimate_failures.json` with exit code 0. -/
theorem C10_unparsable_keys (env : Env) (fuel : Nat) (m : Ledger)
    (final : RetryState) (hm : m ≠ [])
    (hrun : retryLoop env fuel (initRetryState m) = some final) :
    C10Conclusion env fuel m final := by
  obtain ⟨hfin, hdr⟩ := retryLoop_final env hrun
  have hpend : ∀ d ∈ (initRetryState m).pending,
      ∃ key ∈ keysOf m, parseDateKey key = some d := by
    intro d hd
    obtain ⟨key, hk, hp⟩ := List.mem_filterMap.mp hd
    exact ⟨key, hk, hp⟩
  refine ⟨?_, ?_, ?_⟩
  · intro key hkey hparse
    rw [hfin]
    rw [retryIter_unparsable env key hparse fuel 0 (initRetryState m)
      (fun q hq => absurd hq (by simp [initRetryState]))
      (fun d hd => by
        obtain ⟨key', _, hp'⟩ := hpend d hd
        exact parse_valid hp')]
    rfl
  · intro k q hq
    exact (retryIter_dateInv env
      (fun d => ∃ key ∈ keysOf m, parseDateKey key = some d) k 0
      (initRetryState m)
      (fun q' hq' => absurd hq' (by simp [initRetryState])) hpend).1 q hq
  · intro hall
    have hne : m.isEmpty = false := by
      cases m with
      | nil => exact absurd rfl hm
      | cons a l => rfl
    have hfailed : final.failed = [] := by
      rw [hfin]
      apply retryIter_failed_nil env fuel 0 (initRetryState m) rfl
      intro i _ q hq
      rw [Bool.eq_false_iff]
      intro htrue
      obtain ⟨rc, hrc, hnz⟩ := (pollFailed_iff env (0 + i) q).mp htrue
      exact hnz (hall i q (by simpa using hq) rc (by simpa using hrc))
    simp only [retryMain, hne, Bool.false_eq_true, if_false, hrun, hfailed]
    rfl

def recWitC10a : FailureRecord :=
  { date := "not-a-date", variables_to_retry := allVarsList,
    error_message := "Subprocess failed with exit code 1",
    last_attempt := "t0" }

def recWitC10b : FailureRecord :=
  { date := "1988-04-03", variables_to_retry := allVarsList,
    error_message := "Subprocess failed with exit code 1",
    last_attempt := "t0" }

def mWitC10 : Ledger :=
  [("not-a-date", recWitC10a), ("1988-04-03", recWitC10b)]

def envWitC10 : Env :=
  { poll := fun _ t => if 1 ≤ t then some 0 else none,
    launch := fun k => some (k + 20),
    now := fun t => toString t }

def finWitC10 : RetryState :=
  iterWith (retryStep envWitC10) 0 4 (initRetryState mWitC10)

theorem C10_unparsable_keys_witness :
    (mWitC10 ≠ [] ∧
      retryLoop envWitC10 4 (initRetryState mWitC10) = some finWitC10) ∧
    C10Conclusion envWitC10 4 mWitC10 finWitC10 :=
  ⟨⟨by decide, by decide⟩,
    C10_unparsable_keys envWitC10 4 mWitC10 finWitC10 (by decide) (by decide)⟩

/-! ## Claim C7 -/

/-- Claim C7, amended: the retry step's exit status is 1 exactly when some
retried worker was observed to exit nonzero.  This is *not* the same as
"some record remains in the terminal set": records that were never retried
(unparsable keys, launch failures) remain while the exit status stays 0,
see `C7_counterexample`. -/
def C7Conclusion (env : Env) (fuel : Nat) (m : Ledger)
    (final : RetryState) : Prop :=
  retryMain env fuel (.content m) = some ⟨some final.remaining,
    if final.failed.isEmpty then 0 else 1⟩ ∧
  ((if final.failed.isEmpty then (0 : Nat) else 1) = 1 ↔
    ∃ i, i < fuel ∧ ∃ q ∈ (retryIterN env i (initRetryState m)).active,
      ∃ rc : Int, env.poll q.1 i = some rc ∧ rc ≠ 0)

/-- Claim C7, amended: `retry_failed.py` exits 1 exactly when some retried
worker was observed to exit nonzero during the pass (`failed_dates`
nonempty), not when records remain in the terminal file — an unparsable
key leaves a record behind with exit code 0 (see `C7_counterexample`). -/
theorem C7_amended_exit_status (env : Env) (fuel : Nat) (m : Ledger)
    (final : RetryState) (hm : m ≠ [])
    (hrun : retryLoop env fuel (initRetryState m) = some final) :
    C7Conclusion env fuel m final := by
  obtain ⟨hfin, hdr⟩ := retryLoop_final env hrun
  have hne : m.isEmpty = false := by
    cases m with
    | nil => exact absurd rfl hm
    | cons a l => rfl
  constructor
  · simp only [retryMain, hne, Bool.false_eq_true, if_false, hrun]
  · by_cases hfe : final.failed = []
    · rw [hfe]
      simp only [List.isEmpty_nil, if_true]
      constructor
      · intro h01
        exact absurd h01 (by decide)
      · rintro ⟨i, hi, q, hq, rc, hrc, hnz⟩
        exfalso
        have h1 : pollFailed env i q = true :=
          (pollFailed_iff env i q).mpr ⟨rc, hrc, hnz⟩
        have h2 : (iterWith (retryStep env) 0 i
            (initRetryState m)).failed.length
            < (iterWith (retryStep env) 0 (i + 1)
              (initRetryState m)).failed.length := by
          rw [iterWith_succ_right]
          simp only [Nat.zero_add]
          exact retryStep_failed_event env i _ q hq h1
        have h3 := retryIter_failed_length env (fuel - (i + 1)) (i + 1)
          (iterWith (retryStep env) 0 (i + 1) (initRetryState m))
        rw [← iterWith_split0,
          show i + 1 + (fuel - (i + 1)) = fuel from by omega,
          ← hfin, hfe, List.length_nil] at h3
        omega
    · have hie : final.failed.isEmpty = false := by
        cases hf : final.failed with
        | nil => exact absurd hf hfe
        | cons a l => rfl
      have hif : (if final.failed.isEmpty = true then (0 : Nat) else 1) = 1 := by
        rw [hie]
        rfl
      rw [hif, eq_self_iff_true, true_iff]
      by_contra hno
      have hnil : final.failed = [] := by
        rw [hfin]
        apply retryIter_failed_nil env fuel 0 (initRetryState m) rfl
        intro i hi q hq
        rw [Bool.eq_false_iff]
        intro htrue
        obtain ⟨rc, hrc, hnz⟩ := (pollFailed_iff env (0 + i) q).mp htrue
        exact hno ⟨i, hi, q, by simpa using hq, rc, by simpa using hrc, hnz⟩
      exact hfe hnil

def recCexC7 : FailureRecord :=
  { date := "not-a-date", variables_to_retry := allVarsList,
    error_message := "Subprocess failed with exit code 1",
    last_attempt := "t0" }

/-- A trivial oracle (no polls resolve, no launches succeed). -/
def env0 : Env :=
  { poll := fun _ _ => none, launch := fun _ => none, now := fun _ => "" }

/-- Claim C7 as frozen is false: with a single unparsable ledger key no
worker is launched, the record remains in the terminal failure file, yet
`main` returns 0 because `failed_dates` is empty. -/
theorem C7_counterexample :
    retryMain env0 1 (.content [("not-a-date", recCexC7)])
      = some ⟨some [("not-a-date", recCexC7)], 0⟩ ∧
    ([("not-a-date", recCexC7)] : Ledger) ≠ [] ∧ (0 : Nat) ≠ 1 := by
  decide

def finWitC7 : RetryState :=
  iterWith (retryStep envWitC2) 0 4 (initRetryState mWitC2)

theorem C7_amended_exit_status_witness :
    (mWitC2 ≠ [] ∧
      retryLoop envWitC2 4 (initRetryState mWitC2) = some finWitC7) ∧
    C7Conclusion envWitC2 4 mWitC2 finWitC7 :=
  ⟨⟨by decide, by decide⟩,
    C7_amended_exit_status envWitC2 4 mWitC2 finWitC7 (by decide) (by decide)⟩

/-! ## Claim C5 -/

/-- Claim C5, amended.  An *absent* ledger file is handled gracefully
everywhere: the retry step writes an empty terminal file and exits 0, and
the pipeline driver's `log_failure` read treats it as the empty mapping.
*Unparsable* content is treated as empty (without raising) only by the
driver's `log_failure`; the retry step instead logs the error and returns
exit code 1 without writing the terminal failure file at all. -/
theorem C5_amended_ledger_load (env : Env) (fuel : Nat) (d : Date)
    (rc : Int) (now : String) :
    retryMain env fuel .absent = some ⟨some [], 0⟩ ∧
    loadForLog .absent = [] ∧
    loadForLog .corrupt = [] ∧
    log_failure .corrupt d rc now
      = .content [(fmtDate d, mkFailureRecord d rc now)] ∧
    retryMain env fuel .corrupt = some ⟨none, 1⟩ :=
  ⟨rfl, rfl, rfl, rfl, rfl⟩

/-- Claim C5 as frozen is false: on unparsable ledger content the retry
step does not proceed as if no failures were recorded — it returns exit
code 1 and writes no terminal failure file (terminal `none`, not an empty
mapping, and failure instead of success). -/
theorem C5_counterexample :
    retryMain env0 1 .corrupt = some ⟨none, 1⟩ ∧
    some (⟨none, 1⟩ : RetryOutcome) ≠ some (⟨some [], 0⟩ : RetryOutcome) := by
  decide

/-! ## Claim C8 -/

theorem count_keysOf_setKey (m : Ledger) (k : String) (v : FailureRecord)
    (hnd : (keysOf m).Nodup) : (keysOf (setKey m k v)).count k = 1 := by
  rw [keysOf_setKey]
  by_cases hk : k ∈ keysOf m
  · rw [if_pos hk]
    exact List.count_eq_one_of_mem hnd hk
  · rw [if_neg hk, List.count_append]
    rw [List.count_eq_zero_of_not_mem hk]
    simp

/-- Claim C8: `log_failure` is last-write-wins.  Recording a failure for a
date already in the ledger replaces that date's single record in place
(same key, new message and timestamp), leaves other keys untouched, never
produces duplicate keys, and loading immediately after `clear()` gives the
empty mapping.  The same holds for the `src/src` per-date file variant. -/
def C8Conclusion (file : LedgerFile) (dir : Ledger) (d : Date)
    (rc1 rc2 : Int) (now1 now2 : String) : Prop :=
  ((keysOf (loadForLog (log_failure (log_failure file d rc1 now1) d rc2
    now2))).count (fmtDate d) = 1) ∧
  (lookupKey (loadForLog (log_failure (log_failure file d rc1 now1) d rc2
    now2)) (fmtDate d) = some (mkFailureRecord d rc2 now2)) ∧
  ((keysOf (loadForLog (log_failure (log_failure file d rc1 now1) d rc2
    now2))).Nodup) ∧
  (∀ k, k ≠ fmtDate d →
    lookupKey (loadForLog (log_failure (log_failure file d rc1 now1) d rc2
      now2)) k = lookupKey (loadForLog (log_failure file d rc1 now1)) k ∧
    lookupKey (loadForLog (log_failure file d rc1 now1)) k
      = lookupKey (loadForLog file) k) ∧
  (loadForLog clearLedger = []) ∧
  (lookupKey (srcLogFailure (srcLogFailure dir d rc1 now1) d rc2 now2)
    (fmtDate d) = some (mkFailureRecord d rc2 now2))

/-- Claim C8: logging a failure for the same date twice leaves one record
under the canonical key — the second write replaces the first in place,
other keys are untouched, and this holds for both driver variants. -/
theorem C8_ledger_idempotence (file : LedgerFile) (dir : Ledger) (d : Date)
    (rc1 rc2 : Int) (now1 now2 : String)
    (hnd : (keysOf (loadForLog file)).Nodup) :
    C8Conclusion file dir d rc1 rc2 now1 now2 := by
  refine ⟨?_, ?_, ?_, ?_, rfl, ?_⟩
  · rw [loadForLog_log_failure, loadForLog_log_failure]
    exact count_keysOf_setKey _ _ _ (nodup_keysOf_setKey _ _ _ hnd)
  · rw [loadForLog_log_failure, loadForLog_log_failure]
    exact lookupKey_setKey_self _ _ _
  · rw [loadForLog_log_failure, loadForLog_log_failure]
    exact nodup_keysOf_setKey _ _ _ (nodup_keysOf_setKey _ _ _ hnd)
  · intro k hk
    rw [loadForLog_log_failure, loadForLog_log_failure]
    exact ⟨lookupKey_setKey_other _ _ _ _ hk,
      lookupKey_setKey_other _ _ _ _ hk⟩
  · show lookupKey (setKey (setKey dir (fmtDate d)
      (mkFailureRecord d rc1 now1)) (fmtDate d)
      (mkFailureRecord d rc2 now2)) (fmtDate d) = _
    exact lookupKey_setKey_self _ _ _

theorem C8_ledger_idempotence_witness :
    (keysOf (loadForLog (LedgerFile.content mWitC2))).Nodup ∧
    C8Conclusion (LedgerFile.content mWitC2) [] ⟨1988, 4, 1⟩ 1 2 "t1" "t2" :=
  ⟨by decide,
    C8_ledger_idempotence (LedgerFile.content mWitC2) [] ⟨1988, 4, 1⟩ 1 2
      "t1" "t2" (by decide)⟩

/-! ## Claim C4 -/

theorem foldl_srcHandleOne_dataLedger (env : Env) (t : Nat) :
    ∀ (l : List (Pid × Date)) (st : DriverState),
      (l.foldl (srcHandleOne env t) st).dataLedger = st.dataLedger := by
  intro l
  induction l with
  | nil => intro st; rfl
  | cons pd l ih =>
    intro st
    rw [List.foldl_cons, ih]
    cases hp : env.poll pd.1 t with
    | none => rw [srcHandleOne_none env t st pd hp]
    | some rc =>
      by_cases hrc : rc = 0
      · subst hrc; rw [srcHandleOne_success env t st pd hp]
      · rw [srcHandleOne_failure env t st pd rc hp hrc]

/-- The `src/src` driver never writes `data/failed_jobs.json`: its failure
records go to per-date files under `failed_jobs/`. -/
theorem srcStep_dataLedger (env : Env) (maxP t : Nat) (st : DriverState) :
    (srcStep env maxP t st).dataLedger = st.dataLedger := by
  show (st.active.foldl (srcHandleOne env t) st).dataLedger = _
  exact foldl_srcHandleOne_dataLedger env t st.active st

theorem srcIter_dataLedger (env : Env) (maxP : Nat) :
    ∀ (n t : Nat) (st : DriverState),
      (iterWith (srcStep env maxP) t n st).dataLedger = st.dataLedger := by
  intro n
  induction n with
  | zero => intro t st; rfl
  | succ n ih =>
    intro t st
    rw [iterWith_succ, ih (t + 1) _, srcStep_dataLedger]

/-- Claim C4, amended: only the *pipeline* driver resets the ledger — its
`run()` truncates `data/failed_jobs.json` to the empty mapping before the
launch loop starts, and it launches the retry step on the file produced by
this run alone.  The `src/src` driver performs no reset and never writes
`data/failed_jobs.json` at all, so the ledger its retry step reads is
exactly the file content left by previous runs. -/
def C4Conclusion (env : Env) (maxP : Nat) : Prop :=
  (∀ dates, (pipelineInitState dates).dataLedger = LedgerFile.content []) ∧
  (∀ t st, (srcStep env maxP t st).dataLedger = st.dataLedger) ∧
  (∀ k dates il ij,
    (iterWith (srcStep env maxP) 0 k (srcInitState dates il ij)).dataLedger
      = il) ∧
  (∀ renv fuel rfuel dates il ij out,
    srcRun env renv maxP fuel rfuel dates il ij = some out →
    out.finalLedger = il)

/-- Claim C4, amended: only the pipeline driver clears
`data/failed_jobs.json` at the start of `run()`; the `src/src` driver
never resets (or writes) that file, so its retry step reads whatever the
file held before the run (see `C4_counterexample`). -/
theorem C4_amended_ledger_reset (env : Env) (maxP : Nat) :
    C4Conclusion env maxP := by
  refine ⟨fun dates => rfl, fun t st => srcStep_dataLedger env maxP t st,
    fun k dates il ij => srcIter_dataLedger env maxP k 0 _, ?_⟩
  intro renv fuel rfuel dates il ij out hrun
  unfold srcRun at hrun
  cases hl : srcLoop env maxP fuel (srcInitState dates il ij) with
  | none => rw [hl] at hrun; exact Option.noConfusion hrun
  | some final =>
    rw [hl] at hrun
    obtain ⟨hfin, _⟩ := srcLoop_final env hl
    cases hrun
    show final.dataLedger = il
    rw [hfin, srcIter_dataLedger]
    rfl

def staleRec : FailureRecord :=
  { date := "1988-03-30", variables_to_retry := allVarsList,
    error_message := "Subprocess failed with exit code 1",
    last_attempt := "old-run" }

def envMainC4 : Env :=
  { poll := fun _ t => if 1 ≤ t then some 1 else none,
    launch := fun k => some (k + 30), now := fun t => toString t }

def envRetryC4 : Env :=
  { poll := fun _ t => if 1 ≤ t then some 1 else none,
    launch := fun k => some (k + 40), now := fun t => toString t }

/-- Claim C4 as frozen is false for the `src/src` driver: a record
persisted by a previous run (`staleRec`) is still in
`data/failed_jobs.json` while this run's first worker is already active,
and it is exactly what the retry pass then reads and re-attempts — while
the date that actually failed in this run never reaches the retry input at
all. -/
theorem C4_counterexample :
    (iterWith (srcStep envMainC4 8) 0 1 (srcInitState [⟨1988, 4, 1⟩]
        (.content [("1988-03-30", staleRec)]) [])).active
      = [(30, ⟨1988, 4, 1⟩)] ∧
    (iterWith (srcStep envMainC4 8) 0 1 (srcInitState [⟨1988, 4, 1⟩]
        (.content [("1988-03-30", staleRec)]) [])).dataLedger
      = .content [("1988-03-30", staleRec)] ∧
    (LedgerFile.content [("1988-03-30", staleRec)]
      ≠ LedgerFile.content []) ∧
    srcRun envMainC4 envRetryC4 8 3 3 [⟨1988, 4, 1⟩]
        (.content [("1988-03-30", staleRec)]) []
      = some ⟨[], [⟨1988, 4, 1⟩], .content [("1988-03-30", staleRec)],
          some (some ⟨some [("1988-03-30", retryUpdated staleRec 1 "1")], 1⟩),
          1⟩ := by
  decide

theorem C4_amended_ledger_reset_witness :
    (srcRun envMainC4 envRetryC4 8 3 3 [⟨1988, 4, 1⟩]
        (.content [("1988-03-30", staleRec)]) []).isSome = true ∧
    C4Conclusion envMainC4 8 :=
  ⟨by decide, C4_amended_ledger_reset envMainC4 8⟩

theorem C5_amended_ledger_load_witness :
    retryMain env0 2 .absent = some ⟨some [], 0⟩ ∧
    loadForLog .absent = [] ∧
    loadForLog .corrupt = [] ∧
    log_failure .corrupt ⟨1988, 4, 1⟩ 1 "now"
      = .content [(fmtDate ⟨1988, 4, 1⟩,
          mkFailureRecord ⟨1988, 4, 1⟩ 1 "now")] ∧
    retryMain env0 2 .corrupt = some ⟨none, 1⟩ :=
  C5_amended_ledger_load env0 2 ⟨1988, 4, 1⟩ 1 "now"

/-! ## Claim C6 -/

theorem pipelineStep_failed (env : Env) (maxP t : Nat) (st : DriverState) :
    (pipelineStep env maxP t st).failed
      = st.failed ++ (st.active.filter (pollFailed env t)).map Prod.snd := by
  show (st.active.foldl (pipelineHandleOne env t) st).failed = _
  exact foldl_pipelineHandleOne_failed env t st.active st

theorem pipelineIter_failed_nil (env : Env) (maxP : Nat) :
    ∀ (n t : Nat) (st : DriverState), st.failed = [] →
      (∀ i, i < n → ∀ q ∈ (iterWith (pipelineStep env maxP) t i st).active,
        pollFailed env (t + i) q = false) →
      (iterWith (pipelineStep env maxP) t n st).failed = [] := by
  intro n
  induction n with
  | zero => intro t st h _; exact h
  | succ n ih =>
    intro t st h hns
    rw [iterWith_succ]
    refine ih (t + 1) (pipelineStep env maxP t st) ?_ ?_
    · rw [pipelineStep_failed, h, List.nil_append]
      rw [List.map_eq_nil_iff, List.filter_eq_nil_iff]
      intro q hq
      have := hns 0 (by omega) q (by simpa [iterWith] using hq)
      simpa using this
    · intro i hi q hq
      have := hns (i + 1) (by omega) q (by rwa [iterWith_succ])
      rwa [show t + (i + 1) = t + 1 + i from by omega] at this

theorem pipelineStep_failed_length (env : Env) (maxP t : Nat)
    (st : DriverState) :
    st.failed.length ≤ (pipelineStep env maxP t st).failed.length := by
  rw [pipelineStep_failed]
  simp

theorem pipelineIter_failed_length (env : Env) (maxP : Nat) :
    ∀ (n t : Nat) (st : DriverState), st.failed.length
      ≤ (iterWith (pipelineStep env maxP) t n st).failed.length := by
  intro n
  induction n with
  | zero => intro t st; exact le_refl _
  | succ n ih =>
    intro t st
    rw [iterWith_succ]
    exact le_trans (pipelineStep_failed_length env maxP t st) (ih (t + 1) _)

theorem pipelineStep_failed_event (env : Env) (maxP t : Nat)
    (st : DriverState) (q : Pid × Date) (hq : q ∈ st.active)
    (hf : pollFailed env t q = true) :
    st.failed.length < (pipelineStep env maxP t st).failed.length := by
  rw [pipelineStep_failed, List.length_append]
  have hmem : q.2 ∈ (st.active.filter (pollFailed env t)).map Prod.snd :=
    List.mem_map_of_mem _ (List.mem_filter.mpr ⟨hq, hf⟩)
  have hne : (st.active.filter (pollFailed env t)).map Prod.snd ≠ [] := by
    intro he
    rw [he] at hmem
    exact absurd hmem (by simp)
  have := List.length_pos.mpr hne
  omega

theorem driverDrained_active (st : DriverState)
    (h : driverDrained st = true) : st.pending = [] ∧ st.active = [] := by
  unfold driverDrained at h
  rw [Bool.and_eq_true] at h
  constructor
  · cases hp : st.pending with
    | nil => rfl
    | cons a l => rw [hp] at h; simp [List.isEmpty] at h
  · cases ha : st.active with
    | nil => rfl
    | cons a l => rw [ha] at h; simp [List.isEmpty] at h

theorem pipelineIter_past_final (env : Env) {maxP fuel : Nat}
    {st final : DriverState}
    (h : pipelineLoop env maxP fuel st = some final) :
    ∀ k, fuel ≤ k → iterWith (pipelineStep env maxP) 0 k st = final := by
  obtain ⟨hfin, hdr⟩ := pipelineLoop_final env h
  intro k hk
  rw [show k = fuel + (k - fuel) from by omega, iterWith_split, ← hfin]
  exact iterWith_fix _ (fun u => pipelineStep_fix env maxP u final hdr) _ _

/-- Claim C6, amended: the driver exits 0 exactly when the *main pass* had
zero failed dates — equivalently, when no main-pass worker was observed to
exit nonzero.  The retry pass's outcome is ignored: a run whose retry
clears every failure still exits 1 (`C6_counterexample`), and replacing
the retry oracle entirely cannot change the exit code. -/
def C6Conclusion (env : Env) (maxP : Nat) (dates : List Date)
    (out out' : RunOutcome) : Prop :=
  (out.exitCode = 0 ↔ out.mainFailed = []) ∧
  (out.mainFailed = [] ↔
    (∀ i q, q ∈ (iterWith (pipelineStep env maxP) 0 i
      (pipelineInitState dates)).active →
      ∀ rc : Int, env.poll q.1 i = some rc → rc = 0)) ∧
  (out'.exitCode = out.exitCode ∧ out'.mainFailed = out.mainFailed ∧
    out'.mainCompleted = out.mainCompleted ∧
    out'.finalLedger = out.finalLedger)

/-- Claim C6, amended: the driver's exit code reflects the main pass
alone — 0 iff no main-pass worker exited nonzero — and is invariant under
any change to the retry pass's behaviour (see `C6_counterexample`). -/
theorem C6_amended_driver_exit (env renv renv' : Env)
    (maxP fuel rfuel rfuel' : Nat) (dates : List Date)
    (out out' : RunOutcome)
    (h : pipelineRun env renv maxP fuel rfuel dates = some out)
    (h' : pipelineRun env renv' maxP fuel rfuel' dates = some out') :
    C6Conclusion env maxP dates out out' := by
  unfold pipelineRun at h h'
  cases hl : pipelineLoop env maxP fuel (pipelineInitState dates) with
  | none =>
    rw [hl] at h
    exact Option.noConfusion h
  | some final =>
    rw [hl] at h h'
    cases h
    cases h'
    refine ⟨?_, ?_, rfl, rfl, rfl, rfl⟩
    · show (if final.failed.isEmpty = true then (0 : Nat) else 1) = 0
        ↔ final.failed = []
      cases hf : final.failed with
      | nil => simp
      | cons a l => simp
    · show final.failed = [] ↔ _
      constructor
      · intro hfe i q hq rc hrc
        by_contra hnz
        by_cases hi : i < fuel
        · have h1 : pollFailed env i q = true :=
            (pollFailed_iff env i q).mpr ⟨rc, hrc, hnz⟩
          have h2 : (iterWith (pipelineStep env maxP) 0 i
              (pipelineInitState dates)).failed.length
              < (iterWith (pipelineStep env maxP) 0 (i + 1)
                (pipelineInitState dates)).failed.length := by
            rw [iterWith_succ_right]
            simp only [Nat.zero_add]
            exact pipelineStep_failed_event env maxP i _ q hq h1
          have h3 := pipelineIter_failed_length env maxP (fuel - (i + 1))
            (i + 1) (iterWith (pipelineStep env maxP) 0 (i + 1)
              (pipelineInitState dates))
          rw [← iterWith_split0,
            show i + 1 + (fuel - (i + 1)) = fuel from by omega] at h3
          rw [← (pipelineLoop_final env hl).1, hfe, List.length_nil] at h3
          omega
        · have hpast := pipelineIter_past_final env hl i (by omega)
          have hq' : q ∈ final.active := by
            rw [← hpast]
            exact hq
          obtain ⟨_, ha⟩ :=
            driverDrained_active final (pipelineLoop_final env hl).2
          rw [ha] at hq'
          exact absurd hq' (by simp)
      · intro hall
        rw [(pipelineLoop_final env hl).1]
        apply pipelineIter_failed_nil env maxP fuel 0 _ rfl
        intro i _ q hq
        rw [Bool.eq_false_iff]
        intro htrue
        obtain ⟨rc, hrc, hnz⟩ := (pollFailed_iff env (0 + i) q).mp htrue
        exact hnz (hall i q (by simpa using hq) rc (by simpa using hrc))

def envMainC6 : Env :=
  { poll := fun _ t => if 1 ≤ t then some 1 else none,
    launch := fun k => some (k + 50), now := fun t => toString t }

def envRetryC6 : Env :=
  { poll := fun _ t => if 1 ≤ t then some 0 else none,
    launch := fun k => some (k + 60), now := fun t => toString t }

def outWitC6 : RunOutcome :=
  ⟨[], [⟨1988, 4, 1⟩],
    .content [("1988-04-01", mkFailureRecord ⟨1988, 4, 1⟩ 1 "1")],
    some (some ⟨some [], 0⟩), 1⟩

def outWitC6Alt : RunOutcome :=
  ⟨[], [⟨1988, 4, 1⟩],
    .content [("1988-04-01", mkFailureRecord ⟨1988, 4, 1⟩ 1 "1")],
    some (some ⟨some [("1988-04-01",
      retryUpdated (mkFailureRecord ⟨1988, 4, 1⟩ 1 "1") 1 "1")], 1⟩), 1⟩

/-- Claim C6 as frozen is false: the single date fails in the main pass,
the retry pass succeeds on it (its terminal failure file is the empty
mapping, so zero dates remain failed after both passes) — yet the driver
exits 1, because `run()` returns `len(self.failed_dates) == 0` computed
from the main pass alone. -/
theorem C6_counterexample :
    pipelineRun envMainC6 envRetryC6 8 3 3 [⟨1988, 4, 1⟩] = some outWitC6 ∧
    outWitC6.retryRun = some (some ⟨some [], 0⟩) ∧
    outWitC6.exitCode = 1 ∧ (1 : Nat) ≠ 0 := by
  decide

theorem C6_amended_driver_exit_witness :
    (pipelineRun envMainC6 envRetryC6 8 3 3 [⟨1988, 4, 1⟩] = some outWitC6 ∧
      pipelineRun envMainC6 envRetryC4 8 3 3 [⟨1988, 4, 1⟩]
        = some outWitC6Alt) ∧
    C6Conclusion envMainC6 8 [⟨1988, 4, 1⟩] outWitC6 outWitC6Alt :=
  ⟨⟨by decide, by decide⟩,
    C6_amended_driver_exit envMainC6 envRetryC6 envRetryC4 8 3 3 3
      [⟨1988, 4, 1⟩] outWitC6 outWitC6Alt (by decide) (by decide)⟩

/-! ## Claim C9 -/

theorem foldl_srcHandleOne_pending (env : Env) (t : Nat) :
    ∀ (l : List (Pid × Date)) (st : DriverState),
      (l.foldl (srcHandleOne env t) st).pending = st.pending := by
  intro l
  induction l with
  | nil => intro st; rfl
  | cons pd l ih =>
    intro st
    rw [List.foldl_cons, ih]
    cases hp : env.poll pd.1 t with
    | none => rw [srcHandleOne_none env t st pd hp]
    | some rc =>
      by_cases hrc : rc = 0
      · subst hrc; rw [srcHandleOne_success env t st pd hp]
      · rw [srcHandleOne_failure env t st pd rc hp hrc]

theorem srcCheck_pending (env : Env) (t : Nat) (st : DriverState) :
    (srcCheck env t st).pending = st.pending := by
  show (st.active.foldl (srcHandleOne env t) st).pending = st.pending
  exact foldl_srcHandleOne_pending env t st.active st

theorem srcStep_active_mem (env : Env) (maxP t : Nat) (st : DriverState) :
    ∀ q ∈ (srcStep env maxP t st).active,
      q ∈ st.active ∨ q.2 ∈ st.pending := by
  intro q hq
  unfold srcStep driverLaunchLoop at hq
  rcases launchGo_mem env maxP _ _ _ q hq with h1 | h1
  · left
    have h2 := mem_foldl_erasePid _ _ _ h1
    rw [foldl_srcHandleOne_active] at h2
    exact h2
  · right
    rw [srcCheck_pending] at h1
    exact h1

theorem srcStep_pending_mem (env : Env) (maxP t : Nat) (st : DriverState) :
    ∀ d ∈ (srcStep env maxP t st).pending, d ∈ st.pending := by
  intro d hd
  unfold srcStep driverLaunchLoop at hd
  have := launchGo_pending_subset env maxP _ _ _ d hd
  rw [srcCheck_pending] at this
  exact this

/-- Any per-date property of the active and pending sets is an invariant
of the `src/src` driver loop (workers are only launched for pending
dates). -/
theorem srcIter_dateInv (env : Env) (maxP : Nat) (P : Date → Prop) :
    ∀ (n t : Nat) (st : DriverState),
      (∀ q ∈ st.active, P q.2) → (∀ d ∈ st.pending, P d) →
      (∀ q ∈ (iterWith (srcStep env maxP) t n st).active, P q.2) ∧
      (∀ d ∈ (iterWith (srcStep env maxP) t n st).pending, P d) := by
  intro n
  induction n with
  | zero => intro t st ha hp; exact ⟨ha, hp⟩
  | succ n ih =>
    intro t st ha hp
    rw [iterWith_succ]
    refine ih (t + 1) (srcStep env maxP t st) ?_ ?_
    · intro q hq
      rcases srcStep_active_mem env maxP t st q hq with h | h
      · exact ha q h
      · exact hp _ h
    · intro d hd
      exact hp d (srcStep_pending_mem env maxP t st d hd)

theorem srcStep_completed (env : Env) (maxP t : Nat) (st : DriverState) :
    (srcStep env maxP t st).completed
      = st.completed
          ++ (st.active.filter (pollSucceeded env t)).map Prod.snd := by
  show (st.active.foldl (srcHandleOne env t) st).completed = _
  exact foldl_srcHandleOne_completed env t st.active st

theorem srcStep_failed (env : Env) (maxP t : Nat) (st : DriverState) :
    (srcStep env maxP t st).failed
      = st.failed ++ (st.active.filter (pollFailed env t)).map Prod.snd := by
  show (st.active.foldl (srcHandleOne env t) st).failed = _
  exact foldl_srcHandleOne_failed env t st.active st

theorem srcStep_dir_frame (env : Env) (maxP t : Nat) (st : DriverState)
    (k : String) (h : ∀ q ∈ st.active, fmtDate q.2 ≠ k) :
    lookupKey (srcStep env maxP t st).jobsDir k
      = lookupKey st.jobsDir k := by
  show lookupKey (st.active.foldl (srcHandleOne env t) st).jobsDir k = _
  exact foldl_srcHandleOne_dir_frame env t k st.active st h

/-- A date that is never observed in the active pool ends up in neither
`completed_dates` nor `failed_dates`. -/
theorem srcIter_untouched (env : Env) (maxP : Nat) (d : Date) :
    ∀ (n t : Nat) (st : DriverState),
      d ∉ st.completed → d ∉ st.failed →
      (∀ i, i < n → ∀ q ∈ (iterWith (srcStep env maxP) t i st).active,
        q.2 ≠ d) →
      d ∉ (iterWith (srcStep env maxP) t n st).completed ∧
      d ∉ (iterWith (srcStep env maxP) t n st).failed := by
  intro n
  induction n with
  | zero => intro t st hc hf _; exact ⟨hc, hf⟩
  | succ n ih =>
    intro t st hc hf hns
    rw [iterWith_succ]
    refine ih (t + 1) (srcStep env maxP t st) ?_ ?_ ?_
    · rw [srcStep_completed, List.mem_append]
      rintro (h | h)
      · exact hc h
      · obtain ⟨q, hq, he⟩ := List.mem_map.mp h
        exact hns 0 (by omega) q (List.mem_filter.mp hq).1 he
    · rw [srcStep_failed, List.mem_append]
      rintro (h | h)
      · exact hf h
      · obtain ⟨q, hq, he⟩ := List.mem_map.mp h
        exact hns 0 (by omega) q (List.mem_filter.mp hq).1 he
    · intro i hi q hq
      exact hns (i + 1) (by omega) q (by rwa [iterWith_succ])

/-- A key never carried by an observed active worker is never written to
the per-date failure directory. -/
theorem srcIter_dir_frame (env : Env) (maxP : Nat) (k : String) :
    ∀ (n t : Nat) (st : DriverState),
      (∀ i, i < n → ∀ q ∈ (iterWith (srcStep env maxP) t i st).active,
        fmtDate q.2 ≠ k) →
      lookupKey (iterWith (srcStep env maxP) t n st).jobsDir k
        = lookupKey st.jobsDir k := by
  intro n
  induction n with
  | zero => intro t st _; rfl
  | succ n ih =>
    intro t st hns
    rw [iterWith_succ]
    rw [ih (t + 1) (srcStep env maxP t st) (fun i hi q hq =>
      hns (i + 1) (by omega) q (by rwa [iterWith_succ]))]
    exact srcStep_dir_frame env maxP t st k
      (fun q hq => hns 0 (by omega) q hq)

/-- Claim C9: a launch failure (`launch_subprocess` caught the exception
and returned `None`) is dropped — the date leaves the pending list, joins
nothing, and the loop continues with the next date; the launch phase never
touches the completed/failed lists, the ledger or the failure directory;
and a date whose worker never becomes active is absent from the final
completed and failed lists, has no record written for it, and the ledger
is untouched by the whole `src/src` pass. -/
def C9Conclusion (env : Env) (maxP : Nat) : Prop :=
  (∀ (d : Date) (rest : List Date) (ctr : Nat) (act : List (Pid × Date)),
    act.length < maxP → env.launch ctr = none →
    launchGo env maxP (d :: rest) ctr act
      = launchGo env maxP rest (ctr + 1) act) ∧
  (∀ st : DriverState,
    (driverLaunchLoop env maxP st).completed = st.completed ∧
    (driverLaunchLoop env maxP st).failed = st.failed ∧
    (driverLaunchLoop env maxP st).dataLedger = st.dataLedger ∧
    (driverLaunchLoop env maxP st).jobsDir = st.jobsDir) ∧
  (∀ st : DriverState, ∀ q ∈ (driverLaunchLoop env maxP st).active,
    q ∈ st.active ∨ q.2 ∈ st.pending) ∧
  (∀ (fuel : Nat) (dates : List Date) (il : LedgerFile) (ij : Ledger)
      (final : DriverState) (d : Date),
    srcLoop env maxP fuel (srcInitState dates il ij) = some final →
    (∀ i, ∀ q ∈ (iterWith (srcStep env maxP) 0 i
      (srcInitState dates il ij)).active, q.2 ≠ d) →
    d.valid = true → (∀ e ∈ dates, e.valid = true) →
    d ∉ final.completed ∧ d ∉ final.failed ∧
    lookupKey final.jobsDir (fmtDate d) = lookupKey ij (fmtDate d) ∧
    final.dataLedger = il)

/-- Claim C9: a failed launch drops its date from the pass — the launch
loop moves on to the next date, touches neither the completed/failed lists
nor any failure record, and a date never observed active leaves no trace
in the pass's output. -/
theorem C9_launch_failure (env : Env) (maxP : Nat) :
    C9Conclusion env maxP := by
  refine ⟨?_, ?_, ?_, ?_⟩
  · intro d rest ctr act hlt hfail
    exact launchGo_launch_failure env maxP d rest ctr act hlt hfail
  · intro st
    exact ⟨rfl, rfl, rfl, rfl⟩
  · intro st q hq
    exact launchGo_mem env maxP _ _ _ q hq
  · intro fuel dates il ij final d hloop hnever hv hdates
    obtain ⟨hfin, _⟩ := srcLoop_final env hloop
    have hval : ∀ i, ∀ q ∈ (iterWith (srcStep env maxP) 0 i
        (srcInitState dates il ij)).active, q.2.valid = true := by
      intro i q hq
      refine (srcIter_dateInv env maxP (fun e => e.valid = true) i 0 _
        ?_ (fun e he => hdates e he)).1 q hq
      intro q' hq'
      simp [srcInitState] at hq'
    have hu := srcIter_untouched env maxP d fuel 0 (srcInitState dates il ij)
      (by simp [srcInitState]) (by simp [srcInitState])
      (fun i _ q hq => hnever i q hq)
    refine ⟨?_, ?_, ?_, ?_⟩
    · rw [hfin]
      exact hu.1
    · rw [hfin]
      exact hu.2
    · rw [hfin]
      exact srcIter_dir_frame env maxP (fmtDate d) fuel 0 _
        (fun i _ q hq heq =>
          hnever i q hq (fmtDate_inj (hval i q hq) hv heq))
    · rw [hfin]
      exact srcIter_dataLedger env maxP fuel 0 _

def envWitC9 : Env :=
  { poll := fun _ _ => none, launch := fun _ => none,
    now := fun t => toString t }

theorem C9_launch_failure_witness : C9Conclusion envWitC9 8 :=
  C9_launch_failure envWitC9 8

end Conus404
